import Mathlib

/-!
# Entropy Engine starter kit — verification development

Shallow embedding of the repository's core components:

* `ee/stream.py` — `stream_entropy`: sliding-window histogram entropy with
  EMA smoothing and backward finite differences (fixed-range bin policy).
* `ee_mvp.py` — `EntropyAccountant`: adaptive-range histogram entropy,
  `TCPSource`: queue-backed line transport, `coerce_value`.
* `test_stream_gen.py` — `Generator`: deterministic baseline plus
  stochastic perturbations governed by `uf`.

Python floats are modelled as exact reals `ℝ`; the stochastic library calls
(`random.random`, `random.gauss`, `random.uniform`) are modelled by an oracle
stream of draw outcomes threaded through the state; wall-clock readings
(`time.perf_counter`) are modelled by explicit time-trace parameters.
-/

namespace EE

/-- `eps = 1e-12`, the constant added inside the logarithm in
`stream_entropy` (`ee/stream.py`, line 46). -/
noncomputable def eps : ℝ := 1 / 10 ^ 12

/-- Input clamping from `stream_entropy`:
`if x < 0.0: x = 0.0 elif x > 1.0: x = 1.0`. -/
noncomputable def clamp01 (x : ℝ) : ℝ :=
  if x < 0 then 0 else if x > 1 then 1 else x

/-- `bi = int(x * inv); if bi >= bins: bi = bins - 1` — the bin index of a
fresh (already clamped) sample.  Python's `int` truncates toward zero; on the
clamped, hence nonnegative, argument this is the floor. -/
noncomputable def pyNewBin (bins : ℕ) (x : ℝ) : ℤ :=
  if (bins : ℤ) ≤ ⌊x * bins⌋ then (bins : ℤ) - 1 else ⌊x * bins⌋

/-- `obi = int(min(bins - 1, max(0, int(old * inv))))` — the bin index used
when the evicted sample's count is decremented. -/
noncomputable def pyOldBin (bins : ℕ) (x : ℝ) : ℤ :=
  min ((bins : ℤ) - 1) (max 0 ⌊x * bins⌋)

/-- Indexing a Python list/array of length `n` at (possibly negative) index
`i`: negative indices wrap once from the end; out-of-range indexing raises
(`none`). -/
def pyIdx (n : ℕ) (i : ℤ) : Option ℕ :=
  if 0 ≤ i ∧ i < (n : ℤ) then some i.toNat
  else if -(n : ℤ) ≤ i ∧ i < 0 then some (i + n).toNat
  else none

/-- `counts[i] += d` with Python indexing semantics (no-op stands for the
unreachable `IndexError`). -/
def pyAdd (counts : List ℤ) (i : ℤ) (d : ℤ) : List ℤ :=
  match pyIdx counts.length i with
  | some j => counts.set j (counts.getD j 0 + d)
  | none => counts

/-- The raw normalized entropy computed from the bin counts in
`stream_entropy` (`ee/stream.py`, lines 70–76):
`N = counts.sum(); if N <= 0: H = 0 else H = -(p * log(p + eps)).sum()/logB`
with `p = counts / N` taken over **all** bins. -/
noncomputable def entropyRaw (bins : ℕ) (counts : List ℤ) : ℝ :=
  let N : ℤ := counts.sum
  if N ≤ 0 then 0
  else -((counts.map
      (fun c => ((c : ℝ) / (N : ℝ)) * Real.log ((c : ℝ) / (N : ℝ) + eps))).sum)
    / Real.log bins

/-- State of the `stream_entropy` loop: the sliding window `ring` (oldest
first), the bin counts, the smoothed entropy `H_s` (`None` before the first
tick), the previous emitted slope `Y`, and the running time `t`. -/
structure SEState where
  ring : List ℝ
  counts : List ℤ
  Hs : Option ℝ
  Y : ℝ
  t : ℝ

/-- One per-tick record yielded by `stream_entropy`: `{"t", "H", "Y", "Z"}`,
plus the (internal) raw entropy of this tick for specification purposes. -/
structure SEOut where
  t : ℝ
  H : ℝ
  Y : ℝ
  Z : ℝ
  Hraw : ℝ

instance : Inhabited SEOut := ⟨⟨0, 0, 0, 0, 0⟩⟩

/-- Initial state of the `stream_entropy` loop:
`counts = np.zeros(bins)`, empty ring, `H_s = None`, `Y = 0.0`, `t = 0.0`. -/
def seInit (bins : ℕ) : SEState :=
  ⟨[], List.replicate bins 0, none, 0, 0⟩

/-- One iteration of the `for x in sample_iter` loop of `stream_entropy`
(`ee/stream.py`, lines 52–85). -/
noncomputable def seStep (bins window : ℕ) (dt ema : ℝ) (s : SEState) (x0 : ℝ) :
    SEState × SEOut :=
  let x := clamp01 x0
  let bi := pyNewBin bins x
  let rc : List ℝ × List ℤ :=
    if s.ring.length = window then
      match s.ring with
      | [] => ([], s.counts)
      | old :: rest => (rest, pyAdd s.counts (pyOldBin bins old) (-1))
    else (s.ring, s.counts)
  let ring2 := rc.1 ++ [x]
  let counts2 := pyAdd rc.2 bi 1
  let H := entropyRaw bins counts2
  let Hs' := match s.Hs with | none => H | some hp => ema * H + (1 - ema) * hp
  let Y' := match s.Hs with | none => 0 | some hp => (Hs' - hp) / dt
  let Z := match s.Hs with | none => 0 | some _ => (Y' - s.Y) / dt
  let t' := s.t + dt
  (⟨ring2, counts2, some Hs', Y', t'⟩, ⟨t', Hs', Y', Z, H⟩)

/-- The state of `stream_entropy` after consuming the whole input list. -/
noncomputable def seExec (bins window : ℕ) (dt ema : ℝ) (xs : List ℝ) : SEState :=
  xs.foldl (fun s x => (seStep bins window dt ema s x).1) (seInit bins)

/-- The records yielded by `stream_entropy` on an input list, one per tick,
starting from an arbitrary state. -/
noncomputable def seRunFrom (bins window : ℕ) (dt ema : ℝ) :
    SEState → List ℝ → List SEOut
  | _, [] => []
  | s, x :: xs =>
    let p := seStep bins window dt ema s x
    p.2 :: seRunFrom bins window dt ema p.1 xs

/-- The records yielded by `stream_entropy` on an input list, one per tick. -/
noncomputable def seRun (bins window : ℕ) (dt ema : ℝ) (xs : List ℝ) :
    List SEOut :=
  seRunFrom bins window dt ema (seInit bins) xs

/-- The record yielded at (0-based) tick `k`. -/
noncomputable def seOutAt (bins window : ℕ) (dt ema : ℝ) (xs : List ℝ) (k : ℕ) :
    SEOut :=
  (seRun bins window dt ema xs).getD k default

/-- The `assert` guards at the top of `stream_entropy` (`ee/stream.py`,
lines 37–40).  Because `stream_entropy` is a Python generator, these run on
the first iteration of the returned iterator, not when it is called. -/
def seValid (bins window : ℕ) (dt ema : ℝ) : Prop :=
  2 ≤ bins ∧ 2 ≤ window ∧ 0 < dt ∧ 0 < ema ∧ ema ≤ 1

noncomputable instance (b w : ℕ) (dt ema : ℝ) : Decidable (seValid b w dt ema) := by
  unfold seValid; infer_instance

/-- Running the `stream_entropy` generator: the first iteration raises
`AssertionError` when a configuration parameter is invalid, otherwise the
whole run yields the per-tick records. -/
noncomputable def seRunE (bins window : ℕ) (dt ema : ℝ) (xs : List ℝ) :
    Except String (List SEOut) :=
  if seValid bins window dt ema then .ok (seRun bins window dt ema xs)
  else .error "AssertionError"

/-- The histogram of a list of samples under the fixed-range bin policy of
`stream_entropy`: entry `i` counts the samples whose bin index is `i`. -/
noncomputable def histo (bins : ℕ) (l : List ℝ) : List ℤ :=
  (List.range bins).map fun (i : ℕ) =>
    (l.countP (fun x => pyNewBin bins x = (i : ℤ)) : ℤ)

/-- The last `n` elements of a list (the contents of a `deque(maxlen=n)`
after appending the whole list in order). -/
def lastN (n : ℕ) (l : List α) : List α := l.drop (l.length - n)

/-- Modelled from the spec's words (`spec.md` §4.1), for comparison with the
code: `H = −Σ pᵢ·log(pᵢ)` over **nonzero** bins only, no epsilon inside the
log, `pᵢ = countᵢ/N`, normalized by `log(B)`, `N = 0 ⇒ H = 0`, and the
result clamped to `[0,1]`. -/
noncomputable def specEntropy (bins : ℕ) (counts : List ℤ) : ℝ :=
  let N : ℤ := counts.sum
  if N = 0 then 0
  else
    max 0 (min 1
      (-(((counts.filter (fun c => 0 < c)).map
          (fun c => ((c : ℝ) / (N : ℝ)) * Real.log ((c : ℝ) / (N : ℝ)))).sum)
        / Real.log bins))

/-! ## `ee_mvp.py` — `EntropyAccountant` (adaptive-range policy) -/

/-- Python's built-in `round`: round half to even (banker's rounding). -/
noncomputable def pyRound (x : ℝ) : ℤ :=
  let f := ⌊x⌋
  let r := x - f
  if r < 1 / 2 then f
  else if 1 / 2 < r then f + 1
  else if f % 2 = 0 then f else f + 1

/-- Configuration of an `EntropyAccountant` as stored by `__init__`
(`ee_mvp.py`, lines 166–178). -/
structure EAConfig where
  bins : ℕ
  dt : ℝ
  windowSeconds : ℝ
  windowN : ℕ
  alpha : ℝ
  tstar : ℝ

/-- `EntropyAccountant.__init__`: it raises nothing — `bins` and the derived
window length are clamped up to 2 (`max(2, ...)`), and `dt`, `alpha`,
`tstar` are stored unchecked.  The `Except` result records that no
construction failure path exists in the code. -/
noncomputable def eaInit (bins : ℤ) (dt windowSeconds alpha tstar : ℝ) :
    Except String EAConfig :=
  .ok
    { bins := (max 2 bins).toNat
      dt := dt
      windowSeconds := windowSeconds
      windowN := (max 2 (pyRound (windowSeconds / max (1 / 10 ^ 6) dt))).toNat
      alpha := alpha
      tstar := tstar }

/-- Mutable state of an `EntropyAccountant`. -/
structure EAState where
  window : List ℝ
  lastHt : Option ℝ
  prevHt : Option ℝ
  prev2Ht : Option ℝ

/-- The fresh state built by `EntropyAccountant.__init__`. -/
def eaInitState : EAState := ⟨[], none, none, none⟩

/-- An argument passed to `EntropyAccountant.update`: a numeric sample, a
missing sample (`None`), or a non-finite float (`inf`/`nan`; such a value
has no counterpart in `ℝ`, so it is a separate constructor and the code's
`np.isfinite` test rejects exactly this constructor). -/
inductive EEInput
  | num (x : ℝ)
  | missing
  | nonfinite

/-- The minimum of a nonempty list as computed by `np.nanmin` on NaN-free
data (`0` stands for the unreachable empty case). -/
def listMin : List ℝ → ℝ
  | [] => 0
  | x :: xs => xs.foldl min x

/-- The maximum of a nonempty list, as computed by `np.nanmax` on NaN-free
data. -/
def listMax : List ℝ → ℝ
  | [] => 0
  | x :: xs => xs.foldl max x

/-- The bin index `np.histogram(arr, bins=B, range=(vmin, vmax))` assigns to
a value `x ∈ [vmin, vmax]`: `B` equal-width bins, half-open except the last,
which is closed on the right. -/
noncomputable def npBinIdx (B : ℕ) (vmin vmax x : ℝ) : ℤ :=
  min ((B : ℤ) - 1) ⌊(x - vmin) / (vmax - vmin) * B⌋

/-- The entropy computation inside `EntropyAccountant.update`
(`ee_mvp.py`, lines 184–201): dynamic bin edges from the window min/max
(degenerate span widened to cover `[0,1]`; the `np.isfinite` guard on
`vmin`/`vmax` cannot fire over `ℝ`), `np.histogram` counts, probabilities
over the **nonzero** bins only, `H = −Σ p·log₂ p` normalized by `log₂ k`
where `k` is the number of occupied bins, clipped to `[0,1]`. -/
noncomputable def mvpEntropy (B : ℕ) (w : List ℝ) : ℝ :=
  if 2 ≤ w.length then
    let vmin0 := listMin w
    let vmax0 := listMax w
    let vmin := if vmin0 = vmax0 then min 0 vmin0 else vmin0
    let vmax := if vmin0 = vmax0 then max 1 (vmax0 + 1 / 10 ^ 9) else vmax0
    let counts : List ℕ :=
      (List.range B).map fun (i : ℕ) =>
        w.countP fun x => decide (vmin ≤ x ∧ x ≤ vmax ∧ npBinIdx B vmin vmax x = (i : ℤ))
    let total := counts.sum
    if 0 < total then
      let occ := counts.filter fun c => 0 < c
      let ps := occ.map fun c => (c : ℝ) / (total : ℝ)
      let H := -((ps.map fun p => p * Real.logb 2 p).sum)
      let k := occ.length
      let Hnorm := if 0 < k then Real.logb 2 (k : ℝ) else 1
      let raw := if 0 < Hnorm then H / Hnorm else 0
      min 1 (max 0 raw)
    else 0
  else 0

/-- `EntropyAccountant.update` (`ee_mvp.py`, lines 180–221). -/
noncomputable def eaStep (cfg : EAConfig) (s : EAState) (inp : EEInput) :
    EAState × (ℝ × ℝ × ℝ) :=
  let w := match inp with
    | .num x => lastN cfg.windowN (s.window ++ [x])
    | _ => s.window
  let Hraw := mvpEntropy cfg.bins w
  let Ht := match s.lastHt with
    | none => Hraw
    | some l => cfg.alpha * Hraw + (1 - cfg.alpha) * l
  let Y := match s.lastHt with
    | none => 0
    | some l => (Ht - l) / cfg.dt
  let Z := match s.lastHt, s.prevHt with
    | some l, some p => (Ht - 2 * l + p) / cfg.dt ^ 2
    | _, _ => 0
  (⟨w, some Ht, s.lastHt, s.prevHt⟩, (Ht, Y, Z))

/-- The accountant's state after a list of `update` calls. -/
noncomputable def eaExec (cfg : EAConfig) (inps : List EEInput) : EAState :=
  inps.foldl (fun s i => (eaStep cfg s i).1) eaInitState

/-- The `(H̃, Y, Z)` triples returned by successive `update` calls, starting
from an arbitrary state. -/
noncomputable def eaRunFrom (cfg : EAConfig) : EAState → List EEInput → List (ℝ × ℝ × ℝ)
  | _, [] => []
  | s, i :: is =>
    let p := eaStep cfg s i
    p.2 :: eaRunFrom cfg p.1 is

/-- The `(H̃, Y, Z)` triples returned by successive `update` calls. -/
noncomputable def eaRun (cfg : EAConfig) (inps : List EEInput) : List (ℝ × ℝ × ℝ) :=
  eaRunFrom cfg eaInitState inps

/-- The triple returned by the `k`-th `update` call (0-based). -/
noncomputable def eaOutAt (cfg : EAConfig) (inps : List EEInput) (k : ℕ) : ℝ × ℝ × ℝ :=
  (eaRun cfg inps).getD k (0, 0, 0)

/-! ## `ee_mvp.py` — `coerce_value` and `TCPSource`

Python strings (decoded, line-split tokens) are modelled as `List Char`,
which the kernel can evaluate on concrete tokens. -/

/-- Python's `str.strip()`: drop leading and trailing whitespace. -/
def pyStrip (cs : List Char) : List Char :=
  ((cs.dropWhile Char.isWhitespace).reverse.dropWhile Char.isWhitespace).reverse

/-- The natural number denoted by a list of decimal digit characters
(`0` for the empty list). -/
def digitsVal (cs : List Char) : Option ℕ :=
  cs.foldl
    (fun acc c =>
      match acc with
      | some n => if c.isDigit then some (10 * n + (c.toNat - 48)) else none
      | none => none)
    (some 0)

/-- Python's `float(t)` on a stripped token, modelled for the decimal forms
`[+|-] digits [. digits] [(e|E) [+|-] digits]` (with at least one mantissa
digit) — the forms this system's sources produce; the `inf`/`nan`/underscore
forms `float` also accepts are not modelled.  Returns `none` where `float`
raises `ValueError`. -/
def pyFloatQ (cs : List Char) : Option ℚ :=
  let sgn : ℚ × List Char :=
    match cs with
    | '+' :: r => (1, r)
    | '-' :: r => (-1, r)
    | r => (1, r)
  let ip := sgn.2.takeWhile Char.isDigit
  let r1 := sgn.2.dropWhile Char.isDigit
  let dotted : Bool := match r1 with | '.' :: _ => true | _ => false
  let fp := if dotted then r1.tail.takeWhile Char.isDigit else []
  let r2 := if dotted then r1.tail.dropWhile Char.isDigit else r1
  let hasExp : Bool := match r2 with | 'e' :: _ => true | 'E' :: _ => true | _ => false
  let esgn : ℤ × List Char :=
    match r2.tail with
    | '+' :: r => (1, r)
    | '-' :: r => (-1, r)
    | r => (1, r)
  let ep := if hasExp then esgn.2.takeWhile Char.isDigit else []
  let r3 := if hasExp then esgn.2.dropWhile Char.isDigit else r2
  if ip.length + fp.length = 0 then none
  else if hasExp ∧ ep.length = 0 then none
  else if r3 ≠ [] then none
  else
    match digitsVal ip, digitsVal fp, digitsVal ep with
    | some i, some f, some e =>
      some (sgn.1 * ((i : ℚ) + (f : ℚ) / 10 ^ fp.length)
        * (10 : ℚ) ^ ((if hasExp then esgn.1 else 1) * (e : ℤ)))
    | _, _, _ => none

/-- `coerce_value` (`ee_mvp.py`, lines 38–60), over exact rationals: strip,
empty token is `None`, then try `float`, then the stable character mapping
`sum((ord(ch) % 128) / 127 for ch in t) / max(1, len(t))`. -/
def coerceQ (token : List Char) : Option ℚ :=
  let t := pyStrip token
  if t = [] then none
  else
    match pyFloatQ t with
    | some q => some q
    | none =>
      some ((t.map fun c => ((c.toNat % 128 : ℕ) : ℚ) / 127).sum
        / ((max 1 t.length : ℕ) : ℚ))

/-- `coerce_value` as the scalar the entropy engine receives. -/
noncomputable def coerce_value (token : List Char) : Option ℝ :=
  (coerceQ token).map fun q => (q : ℝ)

/-- The shared state of a `TCPSource`: the token queue
`deque(maxlen=1024)`, oldest first.  The socket and partial-line buffer
live in the background reader and never reach `next()`. -/
structure TCPState where
  q : List (List Char)

/-- The queue of a freshly constructed `TCPSource` (nothing arrived yet). -/
def tcpInit : TCPState := ⟨[]⟩

/-- The background reader appending one decoded, stripped token
(`ee_mvp.py`, lines 124–128): empty tokens are discarded, and the
`deque(maxlen=1024)` drops its oldest entry when full. -/
def tcpPush (s : TCPState) (tok : List Char) : TCPState :=
  if tok = [] then s
  else ⟨(if s.q.length = 1024 then s.q.tail else s.q) ++ [tok]⟩

/-- `TCPSource.next` (`ee_mvp.py`, lines 139–143): pop the most recent
token if any and coerce it, else return the sentinel `None`.  A pure
function of the queue — no I/O, no exception path. -/
noncomputable def tcpNext (s : TCPState) : Option ℝ × TCPState :=
  match s.q.getLast? with
  | some tok => (coerce_value tok, ⟨s.q.dropLast⟩)
  | none => (none, s)

/-- The queue state after `k` successive `next()` calls with no reader
activity in between (e.g. after a server-side close). -/
noncomputable def tcpNextIter (k : ℕ) (s : TCPState) : TCPState :=
  match k with
  | 0 => s
  | k + 1 => tcpNextIter k (tcpNext s).2

/-! ## `test_stream_gen.py` — `Generator`

The process-wide `random` module is modelled by an oracle stream
`ds : ℕ → ℝ` of draw outcomes with a cursor in the state: `random.random()`
yields the next value (always in `[0,1)`), `random.gauss(mu, sigma)` yields
`mu + sigma * z` with `z` the next value, `random.uniform(a, b)` yields
`a + (b-a) * u` with `u` the next value, and `random.choice([-1,1])` picks
by the next value.  `time.perf_counter()` is likewise an oracle
`ts : ℕ → ℝ` of wall-clock readings with its own cursor. -/

inductive GDatatype
  | d123
  | dabc
  | dsym
  | dmix

/-- A `StreamConfig` (`test_stream_gen.py`, lines 10–23); transport fields
(`mode`, `host`, `port`, `fmt`) are I/O-only and omitted. -/
structure GenConfig where
  datatype : GDatatype
  clock : ℝ
  runtime : ℝ
  uf : ℝ
  seed : ℤ
  dtForModule : ℝ

/-- A value emitted by the generator: numeric, or a one-character symbol. -/
inductive GenValue
  | num (x : ℝ)
  | sym (s : String)

/-- The generator's mutable state: `t0`, the cyclic symbol index `_k`,
regime bias and deadline, the five observability counters, the two oracle
cursors, and `_last_emit_t`. -/
structure GenState where
  t0 : ℝ
  k : ℕ
  regimeBias : ℝ
  nextRegime : ℝ
  count : ℕ
  cSpikes : ℕ
  cSwitch : ℕ
  cDrop : ℕ
  cDup : ℕ
  ix : ℕ
  tix : ℕ
  lastEmitT : ℝ

/-- `_baseline_numeric`: quasi-periodic components plus slow drift. -/
noncomputable def baselineNumeric (t : ℝ) : ℝ :=
  Real.sin (2.0 * t) + 0.7 * Real.sin (Real.pi * Real.sqrt 2 * t) +
    0.05 * Real.sin (0.1 * t) + 0.001 * t

/-- `_regime_interval`: `max(5.0, 30.0 * max(0.1, 1.0 - uf))`. -/
noncomputable def regimeInterval (uf : ℝ) : ℝ :=
  max 5.0 (30.0 * max 0.1 (1.0 - uf))

/-- `alphabets["123"] = [str(d) for d in range(10)]`. -/
def alpha123 : List String :=
  ["0", "1", "2", "3", "4", "5", "6", "7", "8", "9"]

/-- `alphabets["abc"] = list(string.ascii_lowercase)`. -/
def alphaAbc : List String :=
  ["a", "b", "c", "d", "e", "f", "g", "h", "i", "j", "k", "l", "m",
   "n", "o", "p", "q", "r", "s", "t", "u", "v", "w", "x", "y", "z"]

/-- `alphabets["sym"] = list("!@#$%^&*?-+=:;")`. -/
def alphaSym : List String :=
  ["!", "@", "#", "$", "%", "^", "&", "*", "?", "-", "+", "=", ":", ";"]

/-- `_maybe_regime_switch` (`test_stream_gen.py`, lines 98–102): when the
deadline has passed, shift the bias by `uniform(-1,1) * (0.5 + uf)` and
rearm the deadline — this happens for every `uf`, including `uf = 0`. -/
noncomputable def maybeRegimeSwitch (uf : ℝ) (ds : ℕ → ℝ) (s : GenState) (now : ℝ) :
    GenState :=
  if s.nextRegime ≤ now then
    { s with
      regimeBias := s.regimeBias + (-1 + 2 * ds s.ix) * (0.5 + uf)
      nextRegime := now + regimeInterval uf
      cSwitch := s.cSwitch + 1
      ix := s.ix + 1 }
  else s

/-- `_noise`: `random.gauss(0.0, 0.25 * uf)`, i.e. `0 + (0.25 * uf) * z`. -/
noncomputable def genNoise (uf : ℝ) (ds : ℕ → ℝ) (s : GenState) : ℝ × GenState :=
  (0.25 * uf * ds s.ix, { s with ix := s.ix + 1 })

/-- `_spike`: probability `uf² * 0.05`, magnitude `2 + 8 * uf`, random
sign via `random.choice([-1, 1])`. -/
noncomputable def genSpike (uf : ℝ) (ds : ℕ → ℝ) (s : GenState) : ℝ × GenState :=
  if ds s.ix < uf ^ 2 * 0.05 then
    ((if ds (s.ix + 1) < 1 / 2 then (-1 : ℝ) else 1) * (2.0 + 8.0 * uf),
      { s with cSpikes := s.cSpikes + 1, ix := s.ix + 2 })
  else (0, { s with ix := s.ix + 1 })

/-- `_maybe_dropout`: probability `0.01 * uf` to skip the emission. -/
noncomputable def genDropout (uf : ℝ) (ds : ℕ → ℝ) (s : GenState) : Bool × GenState :=
  if ds s.ix < 0.01 * uf then (true, { s with cDrop := s.cDrop + 1, ix := s.ix + 1 })
  else (false, { s with ix := s.ix + 1 })

/-- `_maybe_duplicate`: probability `0.01 * uf` to emit the value twice. -/
noncomputable def genDuplicate (uf : ℝ) (ds : ℕ → ℝ) (s : GenState) : Bool × GenState :=
  if ds s.ix < 0.01 * uf then (true, { s with cDup := s.cDup + 1, ix := s.ix + 1 })
  else (false, { s with ix := s.ix + 1 })

/-- `_baseline_symbol`: cyclic traversal of an alphabet. -/
def baselineSymbol (alph : List String) (s : GenState) : String × GenState :=
  (alph.getD (s.k % alph.length) "", { s with k := s.k + 1 })

/-- Producing one value at elapsed time `te` (the body shared by `stream`,
lines 141–152, and `next_for_module`, lines 171–180). -/
noncomputable def genValue (cfg : GenConfig) (ds : ℕ → ℝ) (s : GenState) (te : ℝ) :
    GenValue × GenState :=
  match cfg.datatype with
  | .d123 =>
    let nz := genNoise cfg.uf ds s
    let sp := genSpike cfg.uf ds nz.2
    (.num (baselineNumeric te + s.regimeBias + nz.1 + sp.1), sp.2)
  | .dmix =>
    let nz := genNoise cfg.uf ds s
    let sp := genSpike cfg.uf ds nz.2
    let vn := baselineNumeric te + s.regimeBias + nz.1 + sp.1
    if ds sp.2.ix < 0.25 then
      let y := baselineSymbol (alphaAbc ++ alphaSym) { sp.2 with ix := sp.2.ix + 1 }
      (.sym y.1, y.2)
    else (.num vn, { sp.2 with ix := sp.2.ix + 1 })
  | .dabc =>
    let y := baselineSymbol alphaAbc s
    (.sym y.1, y.2)
  | .dsym =>
    let y := baselineSymbol alphaSym s
    (.sym y.1, y.2)

/-- `_sleep_to_next_tick` (`test_stream_gen.py`, lines 121–130): consumes
the jitter draw and two wall-clock readings (`delay` computation and the
post-sleep reading stored into `_last_emit_t`); the sleep itself only
affects real time, which the `ts` oracle embodies. -/
noncomputable def genSleep (_ds ts : ℕ → ℝ) (s : GenState) : GenState :=
  { s with ix := s.ix + 1, tix := s.tix + 2, lastEmitT := ts (s.tix + 1) }

/-- `n` iterations of the `Generator.stream` loop (`test_stream_gen.py`,
lines 133–163), collecting every yielded value. -/
noncomputable def genStreamRun (cfg : GenConfig) (ds ts : ℕ → ℝ) :
    GenState → ℕ → GenState × List GenValue
  | s, 0 => (s, [])
  | s, n + 1 =>
    let now := ts s.tix
    let s0 := { s with tix := s.tix + 1 }
    if cfg.runtime ≠ 0 ∧ cfg.runtime ≤ now - s.t0 then (s0, [])
    else
      let s1 := maybeRegimeSwitch cfg.uf ds s0 now
      let v := genValue cfg ds s1 (now - s.t0)
      let dr := genDropout cfg.uf ds v.2
      let emitted : List GenValue × GenState :=
        if dr.1 then ([], dr.2)
        else
          let sc := { dr.2 with count := dr.2.count + 1 }
          let du := genDuplicate cfg.uf ds sc
          if du.1 then ([v.1, v.1], { du.2 with count := du.2.count + 1 })
          else ([v.1], du.2)
      let s5 := genSleep ds ts emitted.2
      let r := genStreamRun cfg ds ts s5 n
      (r.1, emitted.1 ++ r.2)

/-- `Generator.next_for_module` (`test_stream_gen.py`, lines 166–180):
logical time `t = step * dt_for_module`, no wall-clock access. -/
noncomputable def genModuleNext (cfg : GenConfig) (ds : ℕ → ℝ) (s : GenState)
    (step : ℕ) : GenValue × GenState :=
  let t := (step : ℝ) * cfg.dtForModule
  let s1 := maybeRegimeSwitch cfg.uf ds s (s.t0 + t)
  genValue cfg ds s1 t

/-- The state built by `Generator.__init__` before validation: `t0` from
the wall clock, empty counters, regime deadline `t0 + interval`. -/
noncomputable def genInitState (cfg : GenConfig) (t0 : ℝ) : GenState :=
  ⟨t0, 0, 0, t0 + regimeInterval cfg.uf, 0, 0, 0, 0, 0, 0, 1, t0⟩

/-- `Generator.__init__` (`test_stream_gen.py`, lines 39–65): state setup,
then validation raising `ValueError` for `clock <= 0`, `runtime < 0`, or
`uf` outside `[0,1]`. -/
noncomputable def genInit (cfg : GenConfig) (ts : ℕ → ℝ) : Except String GenState :=
  let s := genInitState cfg (ts 0)
  if cfg.clock ≤ 0 then .error "clock must be > 0"
  else if cfg.runtime < 0 then .error "runtime must be >= 0"
  else if ¬(0 ≤ cfg.uf ∧ cfg.uf ≤ 1) then .error "uf must be in [0,1]"
  else .ok s

/-- Polling the generator in module mode for steps
`step, step+1, …, step+n-1`. -/
noncomputable def genModuleRunAux (cfg : GenConfig) (ds : ℕ → ℝ) :
    GenState → ℕ → ℕ → GenState × List GenValue
  | s, _, 0 => (s, [])
  | s, step, n + 1 =>
    let v := genModuleNext cfg ds s step
    let r := genModuleRunAux cfg ds v.2 (step + 1) n
    (r.1, v.1 :: r.2)

/-- A module-mode run: construct at wall-clock time `t0`, then poll steps
`0, …, n-1`. -/
noncomputable def genModuleRun (cfg : GenConfig) (ds : ℕ → ℝ) (t0 : ℝ) (n : ℕ) :
    GenState × List GenValue :=
  genModuleRunAux cfg ds (genInitState cfg t0) 0 n

/-- Shifting the wall clock at construction: the same generator state with
every absolute-time field (`t0`, the regime deadline, `_last_emit_t`)
translated by `d`. -/
noncomputable def shiftT0 (d : ℝ) (s : GenState) : GenState :=
  { s with
    t0 := s.t0 + d
    nextRegime := s.nextRegime + d
    lastEmitT := s.lastEmitT + d }

/-- Modelled from the amended C5: the pure baseline-plus-drift-plus-regime
reference stream — one emission per tick of
`baseline(now − t0) + regime_bias`, with the same regime switching, runtime
check, and oracle-cursor bookkeeping as `Generator.stream`, but no noise,
spike, dropout, or duplication.  At `uf = 0` (numeric mode) the generator is
proved equal to it. -/
noncomputable def genDriftRun (cfg : GenConfig) (ds ts : ℕ → ℝ) :
    GenState → ℕ → GenState × List GenValue
  | s, 0 => (s, [])
  | s, n + 1 =>
    let now := ts s.tix
    let s0 := { s with tix := s.tix + 1 }
    if cfg.runtime ≠ 0 ∧ cfg.runtime ≤ now - s.t0 then (s0, [])
    else
      let s1 := maybeRegimeSwitch cfg.uf ds s0 now
      let v : GenValue := .num (baselineNumeric (now - s.t0) + s1.regimeBias)
      let s2 := { s1 with ix := s1.ix + 2 }
      let s3 := { s2 with ix := s2.ix + 1 }
      let s4 := { s3 with count := s3.count + 1 }
      let s5 := { s4 with ix := s4.ix + 1 }
      let s6 := genSleep ds ts s5
      let r := genDriftRun cfg ds ts s6 n
      (r.1, v :: r.2)

/-! ## Helper lemmas: clamping, bin indices, histogram bookkeeping -/

lemma clamp01_nonneg (x : ℝ) : 0 ≤ clamp01 x := by
  unfold clamp01
  split
  · exact le_refl 0
  · split
    · norm_num
    · exact le_of_not_lt (by assumption)

lemma clamp01_le_one (x : ℝ) : clamp01 x ≤ 1 := by
  unfold clamp01
  split
  · norm_num
  · split
    · norm_num
    · exact le_of_not_lt (by assumption)

lemma pyOldBin_eq_pyNewBin (bins : ℕ) (x : ℝ) (hx : 0 ≤ x) :
    pyOldBin bins x = pyNewBin bins x := by
  unfold pyOldBin pyNewBin
  have h0 : (0 : ℤ) ≤ ⌊x * bins⌋ := Int.floor_nonneg.2 (by positivity)
  rw [max_eq_right h0]
  split
  · exact min_eq_left (by omega)
  · exact min_eq_right (by omega)

lemma pyNewBin_nonneg (bins : ℕ) (x : ℝ) (hb : 1 ≤ bins) (hx : 0 ≤ x) :
    0 ≤ pyNewBin bins x := by
  unfold pyNewBin
  have h0 : (0 : ℤ) ≤ ⌊x * bins⌋ := Int.floor_nonneg.2 (by positivity)
  split <;> omega

lemma pyNewBin_lt (bins : ℕ) (x : ℝ) :
    pyNewBin bins x < bins := by
  unfold pyNewBin
  split <;> omega

lemma pyAdd_length (c : List ℤ) (i d : ℤ) : (pyAdd c i d).length = c.length := by
  unfold pyAdd
  cases h : pyIdx c.length i <;> simp

lemma pyIdx_of_range (n : ℕ) (i : ℤ) (h0 : 0 ≤ i) (h1 : i < n) :
    pyIdx n i = some i.toNat := by
  unfold pyIdx
  rw [if_pos ⟨h0, h1⟩]

lemma list_set_self (l : List ℤ) (j : ℕ) (h : j < l.length) : l.set j l[j] = l := by
  apply List.ext_getElem
  · simp
  · intro i h1 h2
    rw [List.getElem_set]
    split
    · simp_all
    · rfl

lemma pyAdd_of_range (cs : List ℤ) (i d : ℤ) (h0 : 0 ≤ i) (h1 : i < cs.length) :
    pyAdd cs i d = cs.set i.toNat (cs.getD i.toNat 0 + d) := by
  unfold pyAdd
  rw [pyIdx_of_range _ _ h0 h1]

lemma pyAdd_sum (cs : List ℤ) (i d : ℤ) (h0 : 0 ≤ i) (h1 : i < cs.length) :
    (pyAdd cs i d).sum = cs.sum + d := by
  rw [pyAdd_of_range cs i d h0 h1]
  have hlt : i.toNat < cs.length := by omega
  have hsplit : cs.sum
      = (List.take i.toNat cs).sum + cs.getD i.toNat 0 + (List.drop (i.toNat + 1) cs).sum := by
    conv_lhs => rw [← List.take_append_drop i.toNat cs]
    rw [List.sum_append, List.drop_eq_getElem_cons hlt, List.sum_cons,
      List.getD_eq_getElem cs 0 hlt]
    ring
  rw [List.sum_set, if_pos hlt, hsplit]
  ring

lemma pyAdd_cancel (cs : List ℤ) (i d : ℤ) (h0 : 0 ≤ i) (h1 : i < cs.length) :
    pyAdd (pyAdd cs i d) i (-d) = cs := by
  have hlt : i.toNat < cs.length := by omega
  rw [pyAdd_of_range cs i d h0 h1, pyAdd_of_range _ i (-d) h0 (by simpa using h1)]
  apply List.ext_getElem
  · simp
  · intro j hj hj'
    rw [List.getElem_set]
    by_cases hc : i.toNat = j
    · rw [if_pos hc]
      rw [List.getD_eq_getElem _ 0 (by simpa using hlt)]
      rw [List.getElem_set, if_pos rfl]
      rw [List.getD_eq_getElem cs 0 hlt]
      subst hc
      ring
    · rw [if_neg hc, List.getElem_set, if_neg hc]

lemma histo_length (bins : ℕ) (l : List ℝ) : (histo bins l).length = bins := by
  unfold histo
  rw [List.length_map, List.length_range]

lemma histo_getElem (bins : ℕ) (m : List ℝ) (j : ℕ) (hj : j < (histo bins m).length) :
    (histo bins m)[j] = (m.countP (fun y => pyNewBin bins y = (j : ℤ)) : ℤ) := by
  unfold histo
  rw [List.getElem_map, List.getElem_range]

lemma histo_nil (bins : ℕ) : histo bins [] = List.replicate bins 0 := by
  apply List.ext_getElem
  · rw [histo_length, List.length_replicate]
  · intro j h1 h2
    rw [histo_getElem, List.getElem_replicate]
    simp

lemma histo_append (bins : ℕ) (l : List ℝ) (x : ℝ)
    (h0 : 0 ≤ pyNewBin bins x) (h1 : pyNewBin bins x < bins) :
    histo bins (l ++ [x]) = pyAdd (histo bins l) (pyNewBin bins x) 1 := by
  rw [pyAdd_of_range _ _ _ h0 (by rw [histo_length]; exact_mod_cast h1)]
  apply List.ext_getElem
  · rw [histo_length, List.length_set, histo_length]
  · intro j hj hj'
    have hjb : j < bins := by
      have := histo_length bins (l ++ [x]); omega
    rw [histo_getElem, List.getElem_set, List.countP_append]
    by_cases hc : (pyNewBin bins x).toNat = j
    · rw [if_pos hc]
      have hb2 : (pyNewBin bins x).toNat < bins := by omega
      have hxj : pyNewBin bins x = (j : ℤ) := by omega
      rw [List.getD_eq_getElem _ 0 (by rw [histo_length]; exact hb2), histo_getElem]
      simp [List.countP_cons, hxj, hc]
    · rw [if_neg hc, histo_getElem]
      have hxj : ¬ pyNewBin bins x = (j : ℤ) := by omega
      simp [List.countP_cons, hxj]

lemma histo_cons (bins : ℕ) (l : List ℝ) (a : ℝ)
    (h0 : 0 ≤ pyNewBin bins a) (h1 : pyNewBin bins a < bins) :
    histo bins (a :: l) = pyAdd (histo bins l) (pyNewBin bins a) 1 := by
  rw [pyAdd_of_range _ _ _ h0 (by rw [histo_length]; exact_mod_cast h1)]
  apply List.ext_getElem
  · rw [histo_length, List.length_set, histo_length]
  · intro j hj hj'
    have hjb : j < bins := by
      have := histo_length bins (a :: l); omega
    rw [histo_getElem, List.getElem_set]
    by_cases hc : (pyNewBin bins a).toNat = j
    · rw [if_pos hc]
      have hb2 : (pyNewBin bins a).toNat < bins := by omega
      have haj : pyNewBin bins a = (j : ℤ) := by omega
      rw [List.getD_eq_getElem _ 0 (by rw [histo_length]; exact hb2), histo_getElem]
      simp [List.countP_cons, haj, hc]
    · rw [if_neg hc, histo_getElem]
      have haj : ¬ pyNewBin bins a = (j : ℤ) := by omega
      simp [List.countP_cons, haj]

lemma histo_cons_erase (bins : ℕ) (l : List ℝ) (a : ℝ)
    (h0 : 0 ≤ pyNewBin bins a) (h1 : pyNewBin bins a < bins) :
    pyAdd (histo bins (a :: l)) (pyNewBin bins a) (-1) = histo bins l := by
  rw [histo_cons bins l a h0 h1]
  exact pyAdd_cancel _ _ 1 h0 (by rw [histo_length]; exact_mod_cast h1)

lemma histo_sum (bins : ℕ) (l : List ℝ) (hb : 1 ≤ bins)
    (hmem : ∀ x ∈ l, 0 ≤ x) :
    (histo bins l).sum = l.length := by
  induction l with
  | nil => rw [histo_nil]; simp
  | cons a l ih =>
    have ha : 0 ≤ a := hmem a (by simp)
    have hrec := ih (fun x hx => hmem x (by simp [hx]))
    rw [histo_cons bins l a (pyNewBin_nonneg bins a hb ha) (pyNewBin_lt bins a),
      pyAdd_sum _ _ _ (pyNewBin_nonneg bins a hb ha)
        (by rw [histo_length]; exact_mod_cast pyNewBin_lt bins a),
      hrec]
    simp

/-! ## Helper lemmas: sliding windows (`lastN`) -/

lemma lastN_length (n : ℕ) (l : List α) : (lastN n l).length = min n l.length := by
  unfold lastN
  rw [List.length_drop]
  omega

lemma lastN_of_le (n : ℕ) (l : List α) (h : l.length ≤ n) : lastN n l = l := by
  unfold lastN
  have h0 : l.length - n = 0 := by omega
  rw [h0, List.drop_zero]

lemma lastN_subset (n : ℕ) (l : List α) : ∀ x ∈ lastN n l, x ∈ l :=
  fun _ hx => List.drop_subset _ l hx

lemma lastN_append_of_lt (n : ℕ) (l : List α) (a : α) (h : l.length < n) :
    lastN n (l ++ [a]) = l ++ [a] :=
  lastN_of_le n _ (by rw [List.length_append]; simpa using h)

lemma lastN_append_of_ge (n : ℕ) (l : List α) (a : α) (h1 : 1 ≤ n)
    (h : n ≤ l.length) :
    lastN n (l ++ [a]) = (lastN n l).tail ++ [a] := by
  unfold lastN
  rw [List.length_append, List.tail_drop]
  have hle : l.length + [a].length - n ≤ l.length := by simp; omega
  rw [List.drop_append_of_le_length hle]
  congr 2
  simp
  omega

/-! ## The window/histogram invariant of `stream_entropy` -/

lemma seExec_append (bins window : ℕ) (dt ema : ℝ) (xs : List ℝ) (x : ℝ) :
    seExec bins window dt ema (xs ++ [x])
      = (seStep bins window dt ema (seExec bins window dt ema xs) x).1 := by
  unfold seExec
  rw [List.foldl_append]
  rfl

lemma seExec_inv (bins window : ℕ) (dt ema : ℝ) (hb : 1 ≤ bins) (hw : 1 ≤ window)
    (xs : List ℝ) :
    (seExec bins window dt ema xs).ring = lastN window (xs.map clamp01) ∧
    (seExec bins window dt ema xs).counts
      = histo bins (lastN window (xs.map clamp01)) := by
  induction xs using List.reverseRecOn with
  | nil =>
    constructor
    · simp [seExec, seInit, lastN]
    · simp [seExec, seInit, lastN, histo_nil]
  | append_singleton xs x ih =>
    obtain ⟨ihr, ihc⟩ := ih
    rw [seExec_append]
    set s := seExec bins window dt ema xs with hs
    have hxc0 : 0 ≤ clamp01 x := clamp01_nonneg x
    have hnb0 : 0 ≤ pyNewBin bins (clamp01 x) := pyNewBin_nonneg bins _ hb hxc0
    have hnb1 : pyNewBin bins (clamp01 x) < bins := pyNewBin_lt bins _
    rw [List.map_append, List.map_singleton]
    by_cases hfull : s.ring.length = window
    · -- window full: evict the oldest sample, then append
      have hlen : window ≤ (xs.map clamp01).length := by
        rw [ihr, lastN_length] at hfull
        omega
      obtain ⟨old, rest, hor⟩ : ∃ old rest, s.ring = old :: rest := by
        cases hr : s.ring with
        | nil => rw [hr] at hfull; simp at hfull; omega
        | cons a t => exact ⟨a, t, rfl⟩
      have hold_mem : old ∈ xs.map clamp01 := by
        have : old ∈ s.ring := by rw [hor]; simp
        rw [ihr] at this
        exact lastN_subset window _ old this
      have hold0 : 0 ≤ old := by
        obtain ⟨y, _, hy⟩ := List.mem_map.1 hold_mem
        rw [← hy]
        exact clamp01_nonneg y
      have hob0 : 0 ≤ pyNewBin bins old := pyNewBin_nonneg bins _ hb hold0
      have hob1 : pyNewBin bins old < bins := pyNewBin_lt bins _
      have hstep : (seStep bins window dt ema s x).1.ring = rest ++ [clamp01 x] ∧
          (seStep bins window dt ema s x).1.counts
            = pyAdd (pyAdd s.counts (pyOldBin bins old) (-1))
                (pyNewBin bins (clamp01 x)) 1 := by
        unfold seStep
        rw [if_pos hfull, hor]
        exact ⟨rfl, rfl⟩
      have htail : lastN window ((xs.map clamp01) ++ [clamp01 x])
          = rest ++ [clamp01 x] := by
        rw [lastN_append_of_ge window _ _ hw hlen, ← ihr, hor]
        rfl
      constructor
      · rw [hstep.1, htail]
      · rw [hstep.2, htail]
        rw [ihc, ← ihr, hor, pyOldBin_eq_pyNewBin bins old hold0]
        rw [histo_cons_erase bins rest old hob0 hob1]
        exact (histo_append bins rest (clamp01 x) hnb0 hnb1).symm
    · -- window not yet full: plain append
      have hlen : (xs.map clamp01).length < window := by
        rw [ihr, lastN_length] at hfull
        by_contra hcon
        push_neg at hcon
        omega
      have hfit : lastN window (xs.map clamp01) = xs.map clamp01 :=
        lastN_of_le window _ (by omega)
      have hstep : (seStep bins window dt ema s x).1.ring = s.ring ++ [clamp01 x] ∧
          (seStep bins window dt ema s x).1.counts
            = pyAdd s.counts (pyNewBin bins (clamp01 x)) 1 := by
        unfold seStep
        rw [if_neg hfull]
        exact ⟨rfl, rfl⟩
      constructor
      · rw [hstep.1, ihr, hfit, lastN_append_of_lt window _ _ hlen]
      · rw [hstep.2, ihc, hfit, lastN_append_of_lt window _ _ hlen]
        exact (histo_append bins _ (clamp01 x) hnb0 hnb1).symm

/-! ## Linking per-tick outputs to prefix states -/

lemma seRunFrom_length (bins window : ℕ) (dt ema : ℝ) (s : SEState) (xs : List ℝ) :
    (seRunFrom bins window dt ema s xs).length = xs.length := by
  induction xs generalizing s with
  | nil => rfl
  | cons x xs ih =>
    unfold seRunFrom
    rw [List.length_cons, ih, List.length_cons]

lemma seRunFrom_getD (bins window : ℕ) (dt ema : ℝ) (s : SEState) (xs : List ℝ)
    (k : ℕ) (hk : k < xs.length) (d : SEOut) :
    (seRunFrom bins window dt ema s xs).getD k d
      = (seStep bins window dt ema
          ((xs.take k).foldl (fun s x => (seStep bins window dt ema s x).1) s)
          (xs.getD k 0)).2 := by
  induction xs generalizing s k with
  | nil => simp at hk
  | cons x xs ih =>
    cases k with
    | zero =>
      unfold seRunFrom
      simp
    | succ k =>
      unfold seRunFrom
      have hk' : k < xs.length := by simpa using hk
      rw [List.getD_cons_succ, ih _ k hk']
      simp

lemma seOutAt_eq (bins window : ℕ) (dt ema : ℝ) (xs : List ℝ) (k : ℕ)
    (hk : k < xs.length) :
    seOutAt bins window dt ema xs k
      = (seStep bins window dt ema (seExec bins window dt ema (xs.take k))
          (xs.getD k 0)).2 := by
  unfold seOutAt seRun seExec
  exact seRunFrom_getD bins window dt ema (seInit bins) xs k hk default

lemma seExec_take_succ (bins window : ℕ) (dt ema : ℝ) (xs : List ℝ) (k : ℕ)
    (hk : k < xs.length) :
    seExec bins window dt ema (xs.take (k + 1))
      = (seStep bins window dt ema (seExec bins window dt ema (xs.take k))
          (xs.getD k 0)).1 := by
  have h1 : xs.take (k + 1) = xs.take k ++ [xs.getD k 0] := by
    rw [List.take_succ, List.getElem?_eq_getElem hk, List.getD_eq_getElem xs 0 hk]
    rfl
  rw [h1, seExec_append]

/-! ## Observation lemmas for one `stream_entropy` step -/

lemma seStep_state_Hs (bins window : ℕ) (dt ema : ℝ) (s : SEState) (x : ℝ) :
    (seStep bins window dt ema s x).1.Hs
      = some ((seStep bins window dt ema s x).2.H) := rfl

lemma seStep_state_Y (bins window : ℕ) (dt ema : ℝ) (s : SEState) (x : ℝ) :
    (seStep bins window dt ema s x).1.Y
      = (seStep bins window dt ema s x).2.Y := rfl

lemma seStep_Hraw (bins window : ℕ) (dt ema : ℝ) (s : SEState) (x : ℝ) :
    (seStep bins window dt ema s x).2.Hraw
      = entropyRaw bins ((seStep bins window dt ema s x).1.counts) := rfl

lemma seStep_H_of_none (bins window : ℕ) (dt ema : ℝ) (s : SEState) (x : ℝ)
    (h : s.Hs = none) :
    (seStep bins window dt ema s x).2.H = (seStep bins window dt ema s x).2.Hraw := by
  unfold seStep
  rw [h]

lemma seStep_H_of_some (bins window : ℕ) (dt ema : ℝ) (s : SEState) (x : ℝ)
    (hp : ℝ) (h : s.Hs = some hp) :
    (seStep bins window dt ema s x).2.H
      = ema * (seStep bins window dt ema s x).2.Hraw + (1 - ema) * hp := by
  unfold seStep
  rw [h]

lemma seStep_Y_of_none (bins window : ℕ) (dt ema : ℝ) (s : SEState) (x : ℝ)
    (h : s.Hs = none) :
    (seStep bins window dt ema s x).2.Y = 0 := by
  unfold seStep
  rw [h]

lemma seStep_Y_of_some (bins window : ℕ) (dt ema : ℝ) (s : SEState) (x : ℝ)
    (hp : ℝ) (h : s.Hs = some hp) :
    (seStep bins window dt ema s x).2.Y
      = ((seStep bins window dt ema s x).2.H - hp) / dt := by
  unfold seStep
  rw [h]

lemma seStep_Z_of_none (bins window : ℕ) (dt ema : ℝ) (s : SEState) (x : ℝ)
    (h : s.Hs = none) :
    (seStep bins window dt ema s x).2.Z = 0 := by
  unfold seStep
  rw [h]

lemma seStep_Z_of_some (bins window : ℕ) (dt ema : ℝ) (s : SEState) (x : ℝ)
    (hp : ℝ) (h : s.Hs = some hp) :
    (seStep bins window dt ema s x).2.Z
      = ((seStep bins window dt ema s x).2.Y - s.Y) / dt := by
  unfold seStep
  rw [h]

lemma seExec_nil (bins window : ℕ) (dt ema : ℝ) :
    seExec bins window dt ema [] = seInit bins := rfl

lemma seExec_Hs_out (bins window : ℕ) (dt ema : ℝ) (xs : List ℝ) (k : ℕ)
    (hk : k < xs.length) :
    (seExec bins window dt ema (xs.take (k + 1))).Hs
      = some ((seOutAt bins window dt ema xs k).H) := by
  rw [seExec_take_succ bins window dt ema xs k hk,
    seOutAt_eq bins window dt ema xs k hk]
  rfl

lemma seExec_Y_out (bins window : ℕ) (dt ema : ℝ) (xs : List ℝ) (k : ℕ)
    (hk : k < xs.length) :
    (seExec bins window dt ema (xs.take (k + 1))).Y
      = (seOutAt bins window dt ema xs k).Y := by
  rw [seExec_take_succ bins window dt ema xs k hk,
    seOutAt_eq bins window dt ema xs k hk]
  rfl

/-! ## Linking `EntropyAccountant` outputs to prefix states -/

lemma eaExec_append (cfg : EAConfig) (inps : List EEInput) (i : EEInput) :
    eaExec cfg (inps ++ [i]) = (eaStep cfg (eaExec cfg inps) i).1 := by
  unfold eaExec
  rw [List.foldl_append]
  rfl

lemma eaRunFrom_getD (cfg : EAConfig) (s : EAState) (inps : List EEInput)
    (k : ℕ) (hk : k < inps.length) (d : ℝ × ℝ × ℝ) :
    (eaRunFrom cfg s inps).getD k d
      = (eaStep cfg ((inps.take k).foldl (fun s i => (eaStep cfg s i).1) s)
          (inps.getD k .missing)).2 := by
  induction inps generalizing s k with
  | nil => simp at hk
  | cons i inps ih =>
    cases k with
    | zero =>
      unfold eaRunFrom
      simp
    | succ k =>
      unfold eaRunFrom
      have hk' : k < inps.length := by simpa using hk
      rw [List.getD_cons_succ, ih _ k hk']
      simp

lemma eaOutAt_eq (cfg : EAConfig) (inps : List EEInput) (k : ℕ)
    (hk : k < inps.length) :
    eaOutAt cfg inps k
      = (eaStep cfg (eaExec cfg (inps.take k)) (inps.getD k .missing)).2 := by
  unfold eaOutAt eaRun eaExec
  exact eaRunFrom_getD cfg eaInitState inps k hk (0, 0, 0)

lemma eaExec_take_succ (cfg : EAConfig) (inps : List EEInput) (k : ℕ)
    (hk : k < inps.length) :
    eaExec cfg (inps.take (k + 1))
      = (eaStep cfg (eaExec cfg (inps.take k)) (inps.getD k .missing)).1 := by
  have h1 : inps.take (k + 1) = inps.take k ++ [inps.getD k .missing] := by
    rw [List.take_succ, List.getElem?_eq_getElem hk,
      List.getD_eq_getElem inps .missing hk]
    rfl
  rw [h1, eaExec_append]

lemma eaStep_state_last (cfg : EAConfig) (s : EAState) (i : EEInput) :
    (eaStep cfg s i).1.lastHt = some ((eaStep cfg s i).2.1) := rfl

lemma eaStep_state_prev (cfg : EAConfig) (s : EAState) (i : EEInput) :
    (eaStep cfg s i).1.prevHt = s.lastHt := rfl

lemma eaStep_state_prev2 (cfg : EAConfig) (s : EAState) (i : EEInput) :
    (eaStep cfg s i).1.prev2Ht = s.prevHt := rfl

lemma eaStep_H_of_none (cfg : EAConfig) (s : EAState) (i : EEInput)
    (h : s.lastHt = none) :
    (eaStep cfg s i).2.1 = mvpEntropy cfg.bins ((eaStep cfg s i).1.window) := by
  unfold eaStep
  rw [h]

lemma eaStep_H_of_some (cfg : EAConfig) (s : EAState) (i : EEInput) (l : ℝ)
    (h : s.lastHt = some l) :
    (eaStep cfg s i).2.1
      = cfg.alpha * mvpEntropy cfg.bins ((eaStep cfg s i).1.window)
        + (1 - cfg.alpha) * l := by
  unfold eaStep
  rw [h]

lemma eaStep_Y_of_none (cfg : EAConfig) (s : EAState) (i : EEInput)
    (h : s.lastHt = none) :
    (eaStep cfg s i).2.2.1 = 0 := by
  unfold eaStep
  rw [h]

lemma eaStep_Y_of_some (cfg : EAConfig) (s : EAState) (i : EEInput) (l : ℝ)
    (h : s.lastHt = some l) :
    (eaStep cfg s i).2.2.1 = ((eaStep cfg s i).2.1 - l) / cfg.dt := by
  unfold eaStep
  rw [h]

lemma eaStep_Z_of_none_last (cfg : EAConfig) (s : EAState) (i : EEInput)
    (h : s.lastHt = none) :
    (eaStep cfg s i).2.2.2 = 0 := by
  unfold eaStep
  rw [h]

lemma eaStep_Z_of_none_prev (cfg : EAConfig) (s : EAState) (i : EEInput)
    (h : s.prevHt = none) :
    (eaStep cfg s i).2.2.2 = 0 := by
  unfold eaStep
  rw [h]
  rcases s.lastHt with _ | l <;> rfl

lemma eaStep_Z_of_some (cfg : EAConfig) (s : EAState) (i : EEInput) (l p : ℝ)
    (hl : s.lastHt = some l) (hp : s.prevHt = some p) :
    (eaStep cfg s i).2.2.2 = ((eaStep cfg s i).2.1 - 2 * l + p) / cfg.dt ^ 2 := by
  unfold eaStep
  rw [hl, hp]

lemma eaExec_nil (cfg : EAConfig) : eaExec cfg [] = eaInitState := rfl

lemma eaExec_last_out (cfg : EAConfig) (inps : List EEInput) (k : ℕ)
    (hk : k < inps.length) :
    (eaExec cfg (inps.take (k + 1))).lastHt = some ((eaOutAt cfg inps k).1) := by
  rw [eaExec_take_succ cfg inps k hk, eaOutAt_eq cfg inps k hk]
  rfl

lemma eaExec_prev_out (cfg : EAConfig) (inps : List EEInput) (k : ℕ)
    (hk : k < inps.length) :
    (eaExec cfg (inps.take (k + 1))).prevHt = (eaExec cfg (inps.take k)).lastHt := by
  rw [eaExec_take_succ cfg inps k hk]
  rfl

/-! ## Shared per-tick slope/curvature facts -/

lemma seY_zero (bins window : ℕ) (dt ema : ℝ) (xs : List ℝ) (h0 : 0 < xs.length) :
    (seOutAt bins window dt ema xs 0).Y = 0 := by
  rw [seOutAt_eq bins window dt ema xs 0 h0]
  exact seStep_Y_of_none bins window dt ema _ _ rfl

lemma seY_diff (bins window : ℕ) (dt ema : ℝ) (xs : List ℝ) (j : ℕ)
    (hj : j + 1 < xs.length) :
    (seOutAt bins window dt ema xs (j + 1)).Y
      = ((seOutAt bins window dt ema xs (j + 1)).H
          - (seOutAt bins window dt ema xs j).H) / dt := by
  have hj' : j < xs.length := by omega
  rw [seOutAt_eq bins window dt ema xs (j + 1) hj,
    seStep_Y_of_some bins window dt ema _ _ _ (seExec_Hs_out bins window dt ema xs j hj'),
    ← seOutAt_eq bins window dt ema xs (j + 1) hj]

lemma seZ_step (bins window : ℕ) (dt ema : ℝ) (xs : List ℝ) (j : ℕ)
    (hj : j + 1 < xs.length) :
    (seOutAt bins window dt ema xs (j + 1)).Z
      = ((seOutAt bins window dt ema xs (j + 1)).Y
          - (seOutAt bins window dt ema xs j).Y) / dt := by
  have hj' : j < xs.length := by omega
  rw [seOutAt_eq bins window dt ema xs (j + 1) hj,
    seStep_Z_of_some bins window dt ema _ _ _ (seExec_Hs_out bins window dt ema xs j hj'),
    ← seOutAt_eq bins window dt ema xs (j + 1) hj,
    seExec_Y_out bins window dt ema xs j hj']

lemma eaY_zero (cfg : EAConfig) (inps : List EEInput) (h0 : 0 < inps.length) :
    (eaOutAt cfg inps 0).2.1 = 0 := by
  rw [eaOutAt_eq cfg inps 0 h0]
  exact eaStep_Y_of_none cfg _ _ rfl

lemma eaY_diff (cfg : EAConfig) (inps : List EEInput) (j : ℕ)
    (hj : j + 1 < inps.length) :
    (eaOutAt cfg inps (j + 1)).2.1
      = ((eaOutAt cfg inps (j + 1)).1 - (eaOutAt cfg inps j).1) / cfg.dt := by
  have hj' : j < inps.length := by omega
  rw [eaOutAt_eq cfg inps (j + 1) hj,
    eaStep_Y_of_some cfg _ _ _ (eaExec_last_out cfg inps j hj'),
    ← eaOutAt_eq cfg inps (j + 1) hj]

lemma eaZ_zero0 (cfg : EAConfig) (inps : List EEInput) (h0 : 0 < inps.length) :
    (eaOutAt cfg inps 0).2.2 = 0 := by
  rw [eaOutAt_eq cfg inps 0 h0]
  exact eaStep_Z_of_none_last cfg _ _ rfl

lemma eaZ_zero1 (cfg : EAConfig) (inps : List EEInput) (h1 : 1 < inps.length) :
    (eaOutAt cfg inps 1).2.2 = 0 := by
  rw [eaOutAt_eq cfg inps 1 h1]
  apply eaStep_Z_of_none_prev
  rw [eaExec_prev_out cfg inps 0 (by omega)]
  rfl

lemma eaZ_second_diff (cfg : EAConfig) (inps : List EEInput) (j : ℕ)
    (hj1 : 1 ≤ j) (hj : j + 1 < inps.length) :
    (eaOutAt cfg inps (j + 1)).2.2
      = ((eaOutAt cfg inps (j + 1)).1 - 2 * (eaOutAt cfg inps j).1
          + (eaOutAt cfg inps (j - 1)).1) / cfg.dt ^ 2 := by
  obtain ⟨m, rfl⟩ : ∃ m, j = m + 1 := ⟨j - 1, by omega⟩
  have hm1 : m + 1 < inps.length := by omega
  have hm : m < inps.length := by omega
  have hprev : (eaExec cfg (inps.take (m + 1 + 1))).prevHt
      = some ((eaOutAt cfg inps m).1) := by
    rw [eaExec_prev_out cfg inps (m + 1) hm1]
    exact eaExec_last_out cfg inps m hm
  rw [eaOutAt_eq cfg inps (m + 1 + 1) hj,
    eaStep_Z_of_some cfg _ _ _ _ (eaExec_last_out cfg inps (m + 1) hm1) hprev,
    ← eaOutAt_eq cfg inps (m + 1 + 1) hj]
  simp only [Nat.add_sub_cancel]

/-! ## Claim C4 — slope is the backward first difference -/

/-- C4: in both engines, the emitted slope `Y` at a tick with at least two
smoothed values equals the backward first difference
`(H̃_t − H̃_{t-1}) / dt` of the smoothed series (no `T*` scaling is applied
by either engine), and `Y = 0.0` exactly on the first tick, regardless of
input. -/
theorem c4_slope_backward_difference (bins window : ℕ) (dt ema : ℝ)
    (cfg : EAConfig) (xs : List ℝ) (inps : List EEInput) (k : ℕ) (hk1 : 1 ≤ k) :
    (xs ≠ [] → (seOutAt bins window dt ema xs 0).Y = 0) ∧
    (k < xs.length →
      (seOutAt bins window dt ema xs k).Y
        = ((seOutAt bins window dt ema xs k).H
            - (seOutAt bins window dt ema xs (k - 1)).H) / dt) ∧
    (inps ≠ [] → (eaOutAt cfg inps 0).2.1 = 0) ∧
    (k < inps.length →
      (eaOutAt cfg inps k).2.1
        = ((eaOutAt cfg inps k).1 - (eaOutAt cfg inps (k - 1)).1) / cfg.dt) := by
  obtain ⟨j, rfl⟩ : ∃ j, k = j + 1 := ⟨k - 1, by omega⟩
  refine ⟨?_, ?_, ?_, ?_⟩
  · intro hne
    exact seY_zero bins window dt ema xs (List.length_pos.2 hne)
  · intro hk
    rw [seY_diff bins window dt ema xs j hk]
    simp only [Nat.add_sub_cancel]
  · intro hne
    exact eaY_zero cfg inps (List.length_pos.2 hne)
  · intro hk
    rw [eaY_diff cfg inps j hk]
    simp only [Nat.add_sub_cancel]

/-- Witness for C4 at a concrete configuration and input. -/
theorem c4_slope_witness :
    (1 : ℕ) ≤ 1 ∧ (1 : ℕ) < ([0, 3/4] : List ℝ).length ∧
    (seOutAt 2 2 1 1 [0, 3/4] 1).Y
      = ((seOutAt 2 2 1 1 [0, 3/4] 1).H - (seOutAt 2 2 1 1 [0, 3/4] 0).H) / 1 :=
  ⟨le_refl 1, by norm_num,
    (c4_slope_backward_difference 2 2 1 1
      ⟨2, 1, 2, 2, 1, 0⟩ [0, 3/4] [] 1 (le_refl 1)).2.1 (by norm_num)⟩

/-! ## Claim C3 — curvature (corrected) -/

/-- C3 (amended): in `EntropyAccountant` the curvature `Z` is `0.0` on
ticks 1–2 and equals the backward second difference
`(H̃_t − 2·H̃_{t-1} + H̃_{t-2})/dt²` from tick 3 on; in `stream_entropy`,
`Z` is `0.0` on tick 1 only — on tick 2 it equals `(H̃_2 − H̃_1)/dt²` — and
equals the backward second difference from tick 3 on.  No `T*` scaling is
applied by either engine. -/
theorem c3_curvature_amended (bins window : ℕ) (dt ema : ℝ)
    (cfg : EAConfig) (xs : List ℝ) (inps : List EEInput) (k : ℕ) (hk2 : 2 ≤ k) :
    (xs ≠ [] → (seOutAt bins window dt ema xs 0).Z = 0) ∧
    (1 < xs.length →
      (seOutAt bins window dt ema xs 1).Z
        = ((seOutAt bins window dt ema xs 1).H
            - (seOutAt bins window dt ema xs 0).H) / dt ^ 2) ∧
    (k < xs.length →
      (seOutAt bins window dt ema xs k).Z
        = ((seOutAt bins window dt ema xs k).H
            - 2 * (seOutAt bins window dt ema xs (k - 1)).H
            + (seOutAt bins window dt ema xs (k - 2)).H) / dt ^ 2) ∧
    (inps ≠ [] → (eaOutAt cfg inps 0).2.2 = 0) ∧
    (1 < inps.length → (eaOutAt cfg inps 1).2.2 = 0) ∧
    (k < inps.length →
      (eaOutAt cfg inps k).2.2
        = ((eaOutAt cfg inps k).1 - 2 * (eaOutAt cfg inps (k - 1)).1
            + (eaOutAt cfg inps (k - 2)).1) / cfg.dt ^ 2) := by
  obtain ⟨j, rfl⟩ : ∃ j, k = j + 2 := ⟨k - 2, by omega⟩
  refine ⟨?_, ?_, ?_, ?_, ?_, ?_⟩
  · intro hne
    have h0 : 0 < xs.length := List.length_pos.2 hne
    rw [seOutAt_eq bins window dt ema xs 0 h0]
    exact seStep_Z_of_none bins window dt ema _ _ rfl
  · intro h1
    rw [seZ_step bins window dt ema xs 0 h1,
      seY_diff bins window dt ema xs 0 h1,
      seY_zero bins window dt ema xs (by omega)]
    rw [sub_zero, div_div, sq]
  · intro hk
    have hj1 : j + 1 < xs.length := by omega
    rw [show j + 2 = (j + 1) + 1 by rfl] at hk ⊢
    rw [seZ_step bins window dt ema xs (j + 1) hk,
      seY_diff bins window dt ema xs (j + 1) hk,
      seY_diff bins window dt ema xs j hj1]
    simp only [Nat.add_sub_cancel]
    rw [show j + 1 + 1 - 2 = j by omega]
    rw [div_sub_div_same, div_div, sq]
    congr 1
    ring
  · intro hne
    exact eaZ_zero0 cfg inps (List.length_pos.2 hne)
  · intro h1
    exact eaZ_zero1 cfg inps h1
  · intro hk
    rw [show j + 2 = (j + 1) + 1 by rfl] at hk ⊢
    rw [eaZ_second_diff cfg inps (j + 1) (by omega) hk]
    simp only [Nat.add_sub_cancel]
    rw [show j + 1 + 1 - 2 = j by omega]

/-! ## Concrete one- and two-tick evaluations of `stream_entropy` -/

lemma log2_pos : (0:ℝ) < Real.log 2 := Real.log_pos one_lt_two

lemma log_one_add_eps_pos : (0:ℝ) < Real.log (1 + eps) := by
  apply Real.log_pos
  unfold eps
  norm_num

lemma seState_half :
    seExec 2 2 1 1 [(1:ℝ)/2]
      = ⟨[(1:ℝ)/2], [0, 1], some (entropyRaw 2 [0, 1]), 0, 1⟩ := by
  have hc : clamp01 ((1:ℝ)/2) = 1/2 := by unfold clamp01; norm_num
  have hb : pyNewBin 2 ((1:ℝ)/2) = 1 := by unfold pyNewBin; norm_num
  show (seStep 2 2 1 1 (seInit 2) ((1:ℝ)/2)).1 = _
  unfold seStep seInit
  norm_num [hc, hb]
  have hp : pyAdd (List.replicate 2 0) 1 1 = [0, 1] := rfl
  exact ⟨hp, by rw [hp]⟩

lemma seState_zero :
    seExec 2 2 1 1 [(0:ℝ)]
      = ⟨[(0:ℝ)], [1, 0], some (entropyRaw 2 [1, 0]), 0, 1⟩ := by
  have hc : clamp01 (0:ℝ) = 0 := by unfold clamp01; norm_num
  have hb : pyNewBin 2 (0:ℝ) = 0 := by unfold pyNewBin; norm_num
  show (seStep 2 2 1 1 (seInit 2) (0:ℝ)).1 = _
  unfold seStep seInit
  norm_num [hc, hb]
  have hp : pyAdd (List.replicate 2 0) 0 1 = [1, 0] := rfl
  exact ⟨hp, by rw [hp]⟩

lemma entropyRaw_01 : entropyRaw 2 [0, 1] = -(Real.log (1 + eps)) / Real.log 2 := by
  unfold entropyRaw
  norm_num

lemma entropyRaw_10 : entropyRaw 2 [1, 0] = -(Real.log (1 + eps)) / Real.log 2 := by
  unfold entropyRaw
  norm_num

lemma entropyRaw_11 : entropyRaw 2 [1, 1] = -(Real.log (1/2 + eps)) / Real.log 2 := by
  unfold entropyRaw
  norm_num
  ring

lemma entropyRaw_02 : entropyRaw 2 [0, 2] = -(Real.log (1 + eps)) / Real.log 2 := by
  unfold entropyRaw
  norm_num

lemma specEntropy_01 : specEntropy 2 [0, 1] = 0 := by
  unfold specEntropy
  norm_num [Real.log_one]

/-! ## Claim C1 — H̃ ∈ [0,1] (code bug) -/

/-- C1 (code evaluated at the failing input): with `bins = 2`, `window = 2`,
`dt = 1`, `ema = 1` and the all-equal input `[0.5, 0.5]`, the window after
the second tick is the degenerate all-equal window `[0.5, 0.5]` (a single
occupied bin), yet the emitted smoothed entropy is **negative** —
`H̃ = −log(1 + 10⁻¹²)/log 2 < 0` — because `stream_entropy` adds `eps`
inside the logarithm and never clamps.  This contradicts both the claimed
invariant `H̃ ∈ [0,1]` (and `H̃ = 0` on single-occupied-bin windows) and the
code's own comment `# normalized H~ in [0,1]`. -/
theorem c1_all_equal_window_emits_negative_H :
    (seExec 2 2 1 1 [(1:ℝ)/2, 1/2]).ring = [1/2, 1/2] ∧
    (seOutAt 2 2 1 1 [(1:ℝ)/2, 1/2] 1).H < 0 := by
  have hc : clamp01 ((1:ℝ)/2) = 1/2 := by unfold clamp01; norm_num
  have hb : pyNewBin 2 ((1:ℝ)/2) = 1 := by unfold pyNewBin; norm_num
  constructor
  · show (seStep 2 2 1 1 (seExec 2 2 1 1 [(1:ℝ)/2]) ((1:ℝ)/2)).1.ring = _
    rw [seState_half]
    unfold seStep
    norm_num [hc]
  · have h1 : (1:ℕ) < ([(1:ℝ)/2, 1/2] : List ℝ).length := by norm_num
    rw [seOutAt_eq 2 2 1 1 [(1:ℝ)/2, 1/2] 1 h1]
    have htake : ([(1:ℝ)/2, 1/2] : List ℝ).take 1 = [(1:ℝ)/2] := rfl
    have hgd : ([(1:ℝ)/2, 1/2] : List ℝ).getD 1 0 = 1/2 := rfl
    rw [htake, hgd, seState_half]
    set S1 : SEState := ⟨[(1:ℝ)/2], [0, 1], some (entropyRaw 2 [0, 1]), 0, 1⟩ with hS1
    have hcounts : (seStep 2 2 1 1 S1 (1/2)).1.counts = [0, 2] := by
      unfold seStep
      norm_num [hS1, hc, hb]
      rfl
    rw [seStep_H_of_some 2 2 1 1 S1 (1/2) _ rfl, seStep_Hraw, hcounts, entropyRaw_02]
    have hneg : -(Real.log (1 + eps)) / Real.log 2 < 0 :=
      div_neg_of_neg_of_pos (by linarith [log_one_add_eps_pos]) log2_pos
    nlinarith [hneg]

/-! ## Claim C2 — the raw entropy formula (corrected) -/

/-- C2 (counterexample): after the first tick on input `[0.5]` the histogram
counts are `[0, 1]`, but the raw normalized entropy the code computes is
**not** the spec's formula (nonzero bins only, no epsilon, clamped) on those
counts: the spec's formula yields `0`, the code yields
`−log(1 + 10⁻¹²)/log 2 < 0`. -/
theorem c2_counterexample :
    (seExec 2 2 1 1 [(1:ℝ)/2]).counts = [0, 1] ∧
    (seOutAt 2 2 1 1 [(1:ℝ)/2] 0).Hraw ≠ specEntropy 2 [0, 1] := by
  constructor
  · rw [seState_half]
  · have h0 : (0:ℕ) < ([(1:ℝ)/2] : List ℝ).length := by norm_num
    rw [seOutAt_eq 2 2 1 1 [(1:ℝ)/2] 0 h0, seStep_Hraw]
    have hst : (seStep 2 2 1 1 (seExec 2 2 1 1 (([(1:ℝ)/2] : List ℝ).take 0))
        (([(1:ℝ)/2] : List ℝ).getD 0 0)).1 = seExec 2 2 1 1 [(1:ℝ)/2] := rfl
    rw [hst, seState_half, specEntropy_01, entropyRaw_01]
    exact ne_of_lt (div_neg_of_neg_of_pos (by linarith [log_one_add_eps_pos]) log2_pos)

/-- C2 (amended): at every tick the **raw** normalized entropy
`stream_entropy` computes equals
`−Σᵢ (cᵢ/N)·log(cᵢ/N + ε)` over **all** bins, `ε = 10⁻¹²`, divided by
`log B`, where `cᵢ` are the histogram counts of the clamped samples in the
current sliding window and `N` their sum (`0` if `N ≤ 0`); the result is
**not** clamped to `[0,1]`.  (`EntropyAccountant` instead skips empty bins,
uses no epsilon, normalizes by `log₂ k` with `k` the number of occupied
bins, and clamps — see `mvpEntropy`.) -/
theorem c2_raw_entropy_formula (bins window : ℕ) (dt ema : ℝ) (xs : List ℝ)
    (k : ℕ) (hb : 2 ≤ bins) (hw : 2 ≤ window) (hk : k < xs.length) :
    (seOutAt bins window dt ema xs k).Hraw
      = entropyRaw bins (histo bins (lastN window ((xs.take (k + 1)).map clamp01))) := by
  rw [seOutAt_eq bins window dt ema xs k hk, seStep_Hraw,
    ← seExec_take_succ bins window dt ema xs k hk,
    (seExec_inv bins window dt ema (by omega) (by omega) (xs.take (k + 1))).2]

/-- Witness for the amended C2. -/
theorem c2_amended_witness :
    2 ≤ 2 ∧ (0:ℕ) < ([(1:ℝ)/2] : List ℝ).length ∧
    (seOutAt 2 2 1 1 [(1:ℝ)/2] 0).Hraw
      = entropyRaw 2 (histo 2 (lastN 2 ((([(1:ℝ)/2] : List ℝ).take 1).map clamp01))) :=
  ⟨le_refl 2, by norm_num,
    c2_raw_entropy_formula 2 2 1 1 [(1:ℝ)/2] 0 (le_refl 2) (le_refl 2) (by norm_num)⟩

/-! ## Claim C3 — counterexample and witness -/

/-- C3 (counterexample): in `stream_entropy` with `bins = 2`, `window = 2`,
`dt = 1`, `ema = 1` and input `[0, 0.75]`, the curvature emitted on tick 2
is `(H̃_2 − H̃_1)/dt² = (log(1+ε) − log(½+ε))/log 2 > 0`, not `0.0` as the
claim states. -/
theorem c3_counterexample : (seOutAt 2 2 1 1 [0, 3/4] 1).Z ≠ 0 := by
  have h1 : (1:ℕ) < ([0, 3/4] : List ℝ).length := by norm_num
  rw [seOutAt_eq 2 2 1 1 [0, 3/4] 1 h1]
  have htake : ([0, 3/4] : List ℝ).take 1 = [0] := rfl
  have hgd : ([0, 3/4] : List ℝ).getD 1 0 = 3/4 := rfl
  rw [htake, hgd, seState_zero]
  set S1 : SEState := ⟨[(0:ℝ)], [1, 0], some (entropyRaw 2 [1, 0]), 0, 1⟩ with hS1
  have hcounts : (seStep 2 2 1 1 S1 (3/4)).1.counts = [1, 1] := by
    have hc : clamp01 ((3:ℝ)/4) = 3/4 := by unfold clamp01; norm_num
    have hb : pyNewBin 2 ((3:ℝ)/4) = 1 := by unfold pyNewBin; norm_num
    unfold seStep
    norm_num [hS1, hc, hb]
    rfl
  rw [seStep_Z_of_some 2 2 1 1 S1 (3/4) _ rfl,
    seStep_Y_of_some 2 2 1 1 S1 (3/4) _ rfl,
    seStep_H_of_some 2 2 1 1 S1 (3/4) _ rfl,
    seStep_Hraw, hcounts, entropyRaw_11, entropyRaw_10]
  have hlt : Real.log (1/2 + eps) < Real.log (1 + eps) := by
    apply Real.log_lt_log
    · unfold eps; norm_num
    · norm_num
  have hpos : 0 < (-(Real.log (1/2 + eps)) / Real.log 2
      - -(Real.log (1 + eps)) / Real.log 2) := by
    rw [div_sub_div_same]
    apply div_pos _ log2_pos
    linarith
  have hSY : S1.Y = 0 := rfl
  rw [hSY]
  have harith : ((1 * (-(Real.log (1/2 + eps)) / Real.log 2)
      + (1 - 1) * (-(Real.log (1 + eps)) / Real.log 2)
      - -(Real.log (1 + eps)) / Real.log 2) / 1 - 0) / 1
      = -(Real.log (1/2 + eps)) / Real.log 2
        - -(Real.log (1 + eps)) / Real.log 2 := by ring
  rw [harith]
  exact ne_of_gt hpos

/-- Witness for the amended C3 (the second-difference case, tick 3). -/
theorem c3_curvature_witness :
    2 ≤ 2 ∧ (2:ℕ) < ([0, 3/4, 1] : List ℝ).length ∧
    (seOutAt 2 2 1 1 [0, 3/4, 1] 2).Z
      = ((seOutAt 2 2 1 1 [0, 3/4, 1] 2).H
          - 2 * (seOutAt 2 2 1 1 [0, 3/4, 1] 1).H
          + (seOutAt 2 2 1 1 [0, 3/4, 1] 0).H) / 1 ^ 2 :=
  ⟨le_refl 2, by norm_num,
    (c3_curvature_amended 2 2 1 1 ⟨2, 1, 2, 2, 1, 0⟩ [0, 3/4, 1] [] 2
      (le_refl 2)).2.2.1 (by norm_num)⟩

/-! ## Claim C8 — the histogram mass invariant -/

/-- C8: for every valid configuration (`B ≥ 2`, `W ≥ 2`) and every input
sequence, after every tick of `stream_entropy` the histogram counts sum to
`min(ticksSoFar, W)` — the length of the sliding window. -/
theorem c8_histogram_sum_invariant (bins window : ℕ) (dt ema : ℝ) (xs : List ℝ)
    (k : ℕ) (hb : 2 ≤ bins) (hw : 2 ≤ window) (hk : k ≤ xs.length) :
    ((seExec bins window dt ema (xs.take k)).counts).sum
      = ((min k window : ℕ) : ℤ) := by
  have hmem : ∀ x ∈ lastN window ((xs.take k).map clamp01), 0 ≤ x := by
    intro x hx
    obtain ⟨y, _, hy⟩ := List.mem_map.1 (lastN_subset _ _ x hx)
    rw [← hy]
    exact clamp01_nonneg y
  rw [(seExec_inv bins window dt ema (by omega) (by omega) (xs.take k)).2,
    histo_sum bins _ (by omega) hmem, lastN_length, List.length_map,
    List.length_take]
  norm_cast
  omega

/-- Witness for C8: three ticks into a two-slot window, the counts sum to
`min 3 2 = 2`. -/
theorem c8_histogram_witness :
    2 ≤ 2 ∧ (3:ℕ) ≤ ([0, 1, 1] : List ℝ).length ∧
    ((seExec 2 2 1 1 (([0, 1, 1] : List ℝ).take 3)).counts).sum
      = ((min 3 2 : ℕ) : ℤ) :=
  ⟨le_refl 2, by norm_num,
    c8_histogram_sum_invariant 2 2 1 1 [0, 1, 1] 3 (le_refl 2) (le_refl 2)
      (by norm_num)⟩

/-! ## Claim C6 — transport semantics (corrected) -/

lemma pyStrip_15 : pyStrip ['1', '.', '5'] = ['1', '.', '5'] := by decide

lemma pyFloatQ_15 :
    pyFloatQ ['1', '.', '5']
      = some ((1:ℚ) * ((1:ℚ) + (5:ℚ) / 10 ^ 1) * (10:ℚ) ^ ((1:ℤ) * ((0:ℕ):ℤ))) := by
  rfl

lemma coerceQ_15 : coerceQ ['1', '.', '5'] = some (3/2 : ℚ) := by
  unfold coerceQ
  rw [pyStrip_15]
  rw [if_neg (by decide : ¬(['1', '.', '5'] : List Char) = [])]
  rw [pyFloatQ_15]
  norm_num

lemma tcpNextIter_empties (k : ℕ) :
    ∀ s : TCPState, s.q.length ≤ k → (tcpNextIter k s).q = [] := by
  induction k with
  | zero =>
    intro s h
    have : s.q = [] := List.eq_nil_of_length_eq_zero (by omega)
    unfold tcpNextIter
    exact this
  | succ k ih =>
    intro s h
    unfold tcpNextIter
    apply ih
    cases hq : s.q.getLast? with
    | none =>
      have hnil : s.q = [] := List.getLast?_eq_none_iff.1 hq
      unfold tcpNext
      rw [hq]
      simp [hnil]
    | some tok =>
      have hne : s.q ≠ [] := by
        intro hcon
        rw [hcon] at hq
        simp at hq
      unfold tcpNext
      rw [hq]
      have := List.length_dropLast s.q
      have hpos : 0 < s.q.length := List.length_pos.2 hne
      simp only []
      omega

/-- C6 (counterexample): with one queued token `"1.5"` and the server
closed (no further reader activity), the first `next()` returns the value
`1.5` but the second returns the sentinel `None` — `TCPSource.next` *pops*
its queue, so it does **not** keep returning the last good value
indefinitely. -/
theorem c6_counterexample :
    (tcpNext ⟨[['1', '.', '5']]⟩).1 = some ((3:ℝ)/2) ∧
    (tcpNext (tcpNext ⟨[['1', '.', '5']]⟩).2).1 = none := by
  constructor
  · show coerce_value ['1', '.', '5'] = some ((3:ℝ)/2)
    unfold coerce_value
    rw [coerceQ_15]
    norm_num
  · have h2 : (tcpNext ⟨[['1', '.', '5']]⟩).2 = ⟨[]⟩ := rfl
    rw [h2]
    rfl

/-- C6 (amended): `next()` is a pure function of the queue (it performs no
I/O and has no exception path): before any value has arrived it returns the
sentinel `None`; when the queue is nonempty it returns the **most recent**
token coerced and removes it; hence after a server-side close (no further
reader activity) the remaining queued values are returned newest-first, one
per call, and after at most `|queue|` calls every subsequent call returns
`None` — not the last good value. -/
theorem c6_transport_amended (s : TCPState) (k : ℕ) :
    (tcpNext ⟨[]⟩ = (none, ⟨[]⟩)) ∧
    (∀ tok, s.q.getLast? = some tok →
      tcpNext s = (coerce_value tok, ⟨s.q.dropLast⟩)) ∧
    (s.q.length ≤ k → (tcpNext (tcpNextIter k s)).1 = none) := by
  refine ⟨rfl, ?_, ?_⟩
  · intro tok htok
    unfold tcpNext
    rw [htok]
  · intro hk
    have hempty := tcpNextIter_empties k s hk
    unfold tcpNext
    rw [List.getLast?_eq_none_iff.2 hempty]

/-- Witness for the amended C6. -/
theorem c6_transport_witness :
    (⟨[['1', '.', '5']]⟩ : TCPState).q.length ≤ 1 ∧
    (tcpNext (tcpNextIter 1 ⟨[['1', '.', '5']]⟩)).1 = none :=
  ⟨by norm_num,
    (c6_transport_amended ⟨[['1', '.', '5']]⟩ 1).2.2 (by norm_num)⟩

/-! ## Claim C7 — construction-time validation (corrected) -/

/-- C7 (counterexample): constructing an `EntropyAccountant` with
`bins = 1 < 2` does **not** fail — `__init__` silently clamps `bins` up to
`2` (and correspondingly clamps the window; it validates nothing). -/
theorem c7_counterexample :
    (eaInit 1 (1/4) 180 (1/5) 0).isOk = true ∧
    (match eaInit 1 (1/4) 180 (1/5) 0 with
      | .ok c => some c.bins
      | .error _ => none) = some 2 := by
  exact ⟨rfl, rfl⟩

/-- C7 (amended): `EntropyAccountant.__init__` never fails and clamps
`bins` and the derived window length up to `2`; `Generator.__init__` raises
`ValueError` at construction exactly when `clock ≤ 0`, `runtime < 0`, or
`uf ∉ [0,1]`; and `stream_entropy` rejects `bins < 2`, `window < 2`,
`dt ≤ 0`, or `ema ∉ (0,1]` with `AssertionError` — raised on the first
iteration of the returned generator (the call itself constructs the
generator object without running the asserts). -/
theorem c7_construction_validation (bins : ℤ) (dt ws a t : ℝ) (cfg : GenConfig)
    (ts : ℕ → ℝ) (b w : ℕ) (dt2 ema2 : ℝ) (xs : List ℝ) :
    (∃ c, eaInit bins dt ws a t = .ok c ∧ 2 ≤ c.bins ∧ 2 ≤ c.windowN) ∧
    ((genInit cfg ts).isOk = true ↔
      (0 < cfg.clock ∧ 0 ≤ cfg.runtime ∧ 0 ≤ cfg.uf ∧ cfg.uf ≤ 1)) ∧
    ((seRunE b w dt2 ema2 xs).isOk = true ↔ seValid b w dt2 ema2) := by
  have hokE : ∀ (ε α : Type) (e : ε), (Except.error e : Except ε α).isOk = false :=
    fun _ _ _ => rfl
  refine ⟨?_, ?_, ?_⟩
  · refine ⟨_, rfl, ?_, ?_⟩
    · show 2 ≤ (max 2 bins).toNat
      have h2 : (2 : ℤ) ≤ max 2 bins := le_max_left 2 bins
      omega
    · show 2 ≤ (max 2 (pyRound (ws / max (1 / 10 ^ 6) dt))).toNat
      have h2 : (2 : ℤ) ≤ max 2 (pyRound (ws / max (1 / 10 ^ 6) dt)) :=
        le_max_left _ _
      omega
  · unfold genInit
    split_ifs with h1 h2 h3
    · rw [hokE]
      simp only [Bool.false_eq_true, false_iff]
      rintro ⟨hc, -, -, -⟩
      exact absurd h1 (not_le.2 hc)
    · rw [hokE]
      simp only [Bool.false_eq_true, false_iff]
      rintro ⟨-, hr, -, -⟩
      exact absurd h2 (not_lt.2 hr)
    · constructor
      · intro _
        push_neg at h1 h2
        exact ⟨h1, h2, h3.1, h3.2⟩
      · intro _
        rfl
    · rw [hokE]
      simp only [Bool.false_eq_true, false_iff]
      rintro ⟨-, -, hu0, hu1⟩
      exact h3 ⟨hu0, hu1⟩
  · unfold seRunE
    split_ifs with h
    · exact iff_of_true rfl h
    · rw [hokE]
      simp only [Bool.false_eq_true, false_iff]
      exact h

/-! ## Claim C10 — missing/non-finite samples leave the window unchanged -/

/-- C10: `EntropyAccountant.update` called with a missing sample (`None`)
or a non-finite `x` leaves the sample window (and hence all
histogram-relevant state) unchanged, yet still succeeds: it advances the
smoothing history (`prev2 ← prev ← last ← H̃`) and returns an `(H̃, Y, Z)`
triple computed from the unchanged window — `H̃` from
`mvpEntropy bins window` through the EMA, `Y` and `Z` by the finite
differences against the stored history. -/
theorem c10_missing_sample_frame (cfg : EAConfig) (s : EAState) (inp : EEInput)
    (h : inp = .missing ∨ inp = .nonfinite) :
    (eaStep cfg s inp).1.window = s.window ∧
    (eaStep cfg s inp).1.lastHt = some ((eaStep cfg s inp).2.1) ∧
    (eaStep cfg s inp).1.prevHt = s.lastHt ∧
    (eaStep cfg s inp).1.prev2Ht = s.prevHt ∧
    (eaStep cfg s inp).2.1 = (match s.lastHt with
      | none => mvpEntropy cfg.bins s.window
      | some l => cfg.alpha * mvpEntropy cfg.bins s.window
          + (1 - cfg.alpha) * l) ∧
    (eaStep cfg s inp).2.2.1 = (match s.lastHt with
      | none => 0
      | some l => ((eaStep cfg s inp).2.1 - l) / cfg.dt) ∧
    (eaStep cfg s inp).2.2.2 = (match s.lastHt, s.prevHt with
      | some l, some p => ((eaStep cfg s inp).2.1 - 2 * l + p) / cfg.dt ^ 2
      | _, _ => 0) := by
  rcases h with h | h <;> subst h <;>
    exact ⟨rfl, rfl, rfl, rfl, rfl, rfl, rfl⟩

/-- Witness for C10 at a concrete accountant state. -/
theorem c10_missing_sample_witness :
    (EEInput.missing = EEInput.missing ∨ EEInput.missing = EEInput.nonfinite) ∧
    (eaStep ⟨2, 1, 2, 2, 1, 0⟩ ⟨[(1:ℝ)/2], some 1, none, none⟩ .missing).1.window
      = [(1:ℝ)/2] :=
  ⟨Or.inl rfl,
    (c10_missing_sample_frame ⟨2, 1, 2, 2, 1, 0⟩ ⟨[(1:ℝ)/2], some 1, none, none⟩
      .missing (Or.inl rfl)).1⟩

/-! ## Claim C9 — determinism (corrected) -/

lemma genValue_shift (cfg : GenConfig) (ds : ℕ → ℝ) (te d : ℝ) (s : GenState) :
    genValue cfg ds (shiftT0 d s) te
      = ((genValue cfg ds s te).1, shiftT0 d (genValue cfg ds s te).2) := by
  cases hdt : cfg.datatype <;>
    simp only [genValue, hdt, genNoise, genSpike, baselineSymbol, shiftT0] <;>
    split_ifs <;>
    rfl

lemma maybeRegimeSwitch_shift (uf : ℝ) (ds : ℕ → ℝ) (d : ℝ) (s : GenState)
    (now : ℝ) :
    maybeRegimeSwitch uf ds (shiftT0 d s) (now + d)
      = shiftT0 d (maybeRegimeSwitch uf ds s now) := by
  unfold maybeRegimeSwitch shiftT0
  by_cases hc : s.nextRegime ≤ now
  · rw [if_pos (by simp only []; linarith), if_pos hc]
    simp only []
    congr 1
    ring
  · rw [if_neg (by simp only []; intro hcon; exact hc (by linarith)), if_neg hc]

lemma genModuleNext_shift (cfg : GenConfig) (ds : ℕ → ℝ) (d : ℝ) (s : GenState)
    (step : ℕ) :
    genModuleNext cfg ds (shiftT0 d s) step
      = ((genModuleNext cfg ds s step).1,
          shiftT0 d (genModuleNext cfg ds s step).2) := by
  simp only [genModuleNext]
  have h1 : (shiftT0 d s).t0 + (step : ℝ) * cfg.dtForModule
      = (s.t0 + (step : ℝ) * cfg.dtForModule) + d := by
    simp only [shiftT0]
    ring
  rw [h1, maybeRegimeSwitch_shift]
  exact genValue_shift cfg ds _ d _

lemma genModuleRunAux_shift (cfg : GenConfig) (ds : ℕ → ℝ) (d : ℝ) :
    ∀ (n step : ℕ) (s : GenState),
      genModuleRunAux cfg ds (shiftT0 d s) step n
        = (shiftT0 d (genModuleRunAux cfg ds s step n).1,
            (genModuleRunAux cfg ds s step n).2) := by
  intro n
  induction n with
  | zero => intro step s; rfl
  | succ n ih =>
    intro step s
    simp only [genModuleRunAux]
    rw [genModuleNext_shift, ih]

/-- C9 (amended): polling (module) mode has zero timing nondeterminism —
the emitted value sequence is a function of the seed-determined draw stream
and configuration alone: two runs whose only difference is the wall-clock
time `t0` read at construction produce identical value sequences for every
number of polls.  (Live-mode numeric values, by contrast, depend on the
wall-clock emission times — see the counterexample.) -/
theorem c9_module_mode_determinism (cfg : GenConfig) (ds : ℕ → ℝ)
    (t0 t0' : ℝ) (n : ℕ) :
    (genModuleRun cfg ds t0 n).2 = (genModuleRun cfg ds t0' n).2 := by
  have hinit : genInitState cfg t0' = shiftT0 (t0' - t0) (genInitState cfg t0) := by
    unfold genInitState shiftT0
    simp only []
    congr 1 <;> ring
  unfold genModuleRun
  rw [hinit, genModuleRunAux_shift]

lemma baselineNumeric_zero : baselineNumeric 0 = 0 := by
  unfold baselineNumeric
  norm_num

lemma baselineNumeric_tenth_pos : 0 < baselineNumeric (1/10) := by
  unfold baselineNumeric
  have hpi3 := Real.pi_gt_three
  have h1 : 0 < Real.sin (2.0 * (1/10 : ℝ)) := by
    apply Real.sin_pos_of_pos_of_lt_pi <;> norm_num
    linarith
  have hs2 : Real.sqrt 2 < 10 := by
    have := Real.sqrt_lt_sqrt (by norm_num : (0:ℝ) ≤ 2) (by norm_num : (2:ℝ) < 100)
    rwa [show Real.sqrt 100 = 10 by
      rw [show (100:ℝ) = 10 ^ 2 by norm_num, Real.sqrt_sq (by norm_num)]] at this
  have hs2p : 0 < Real.sqrt 2 := Real.sqrt_pos.2 (by norm_num)
  have h2 : 0 < Real.sin (Real.pi * Real.sqrt 2 * (1/10 : ℝ)) := by
    apply Real.sin_pos_of_pos_of_lt_pi
    · positivity
    · nlinarith [Real.pi_pos]
  have h3 : 0 < Real.sin (0.1 * (1/10 : ℝ)) := by
    apply Real.sin_pos_of_pos_of_lt_pi <;> norm_num
    linarith
  nlinarith

/-- C9 (counterexample): in live (streaming) mode the emitted **values**
depend on the wall-clock readings, not only the pacing: two runs with the
same seed (draw stream), same configuration (`uf = 0`, numeric), and the
same construction time, but whose first emission happens at wall-clock time
`0` versus `0.1`, emit different values (`baseline(0) = 0` versus
`baseline(0.1) > 0`), because `stream` evaluates the baseline at
`now − t0` with `now = time.perf_counter()`. -/
theorem c9_live_timing_counterexample :
    (genStreamRun ⟨.d123, 1, 0, 0, 42, 1⟩ (fun _ => 1/2) (fun _ => 0)
        (genInitState ⟨.d123, 1, 0, 0, 42, 1⟩ 0) 1).2
      ≠ (genStreamRun ⟨.d123, 1, 0, 0, 42, 1⟩ (fun _ => 1/2) (fun _ => 1/10)
        (genInitState ⟨.d123, 1, 0, 0, 42, 1⟩ 0) 1).2 := by
  simp only [genStreamRun, genInitState, maybeRegimeSwitch, regimeInterval,
    genValue, genNoise, genSpike, genDropout, genDuplicate, genSleep]
  norm_num
  rw [baselineNumeric_zero]
  exact baselineNumeric_tenth_pos.ne

/-! ## Claim C5 — the generator at `uf = 0` (corrected) -/

lemma genNoise_uf0 (ds : ℕ → ℝ) (s : GenState) :
    genNoise 0 ds s = (0, { s with ix := s.ix + 1 }) := by
  unfold genNoise
  norm_num

lemma genSpike_uf0 (ds : ℕ → ℝ) (s : GenState) (hds : 0 ≤ ds s.ix) :
    genSpike 0 ds s = (0, { s with ix := s.ix + 1 }) := by
  unfold genSpike
  rw [if_neg]
  intro hcon
  norm_num at hcon
  exact absurd hcon (not_lt.2 hds)

lemma genDropout_uf0 (ds : ℕ → ℝ) (s : GenState) (hds : 0 ≤ ds s.ix) :
    genDropout 0 ds s = (false, { s with ix := s.ix + 1 }) := by
  unfold genDropout
  rw [if_neg]
  intro hcon
  norm_num at hcon
  exact absurd hcon (not_lt.2 hds)

lemma genDuplicate_uf0 (ds : ℕ → ℝ) (s : GenState) (hds : 0 ≤ ds s.ix) :
    genDuplicate 0 ds s = (false, { s with ix := s.ix + 1 }) := by
  unfold genDuplicate
  rw [if_neg]
  intro hcon
  norm_num at hcon
  exact absurd hcon (not_lt.2 hds)

lemma genValue_uf0_d123 (cfg : GenConfig) (ds : ℕ → ℝ) (s : GenState) (te : ℝ)
    (hdt : cfg.datatype = .d123) (huf : cfg.uf = 0) (hds : ∀ i, 0 ≤ ds i) :
    genValue cfg ds s te
      = (.num (baselineNumeric te + s.regimeBias), { s with ix := s.ix + 2 }) := by
  simp only [genValue, hdt, huf]
  rw [genNoise_uf0, genSpike_uf0 ds _ (hds _)]
  congr 1
  simp

/-- C5 (amended): at `uf = 0` the spike, dropout, and duplication
probabilities are exactly zero and the Gaussian noise has zero standard
deviation, so the numeric-mode generator's stream equals the pure
baseline-plus-drift-plus-regime-bias reference `genDriftRun` in lockstep:
one emission per tick of `baseline(now − t0) + regime_bias`, identical
states and counters.  Regime switching, however, is **not** disabled at
`uf = 0` — the reference itself still switches every 30 time units (see the
counterexample), so the output is the deterministic baseline plus drift
plus the current regime bias. -/
theorem c5_uf0_pure_drift (cfg : GenConfig) (ds ts : ℕ → ℝ) (huf : cfg.uf = 0)
    (hdt : cfg.datatype = .d123) (hds : ∀ i, 0 ≤ ds i) :
    ∀ (n : ℕ) (s : GenState),
      genStreamRun cfg ds ts s n = genDriftRun cfg ds ts s n := by
  intro n
  induction n with
  | zero => intro s; rfl
  | succ n ih =>
    intro s
    simp only [genStreamRun, genDriftRun]
    by_cases hstop : cfg.runtime ≠ 0 ∧ cfg.runtime ≤ ts s.tix - s.t0
    · rw [if_pos hstop, if_pos hstop]
    · rw [if_neg hstop, if_neg hstop]
      rw [genValue_uf0_d123 cfg ds _ _ hdt huf hds]
      rw [huf, genDropout_uf0 ds _ (hds _)]
      simp only [Bool.false_eq_true, if_false]
      rw [genDuplicate_uf0 ds _ (hds _)]
      simp only [Bool.false_eq_true, if_false]
      rw [ih]
      rfl

/-- Witness for the amended C5. -/
theorem c5_uf0_witness :
    ((⟨.d123, 1, 0, 0, 42, 1⟩ : GenConfig).uf = 0 ∧
      (⟨.d123, 1, 0, 0, 42, 1⟩ : GenConfig).datatype = .d123) ∧
    genStreamRun ⟨.d123, 1, 0, 0, 42, 1⟩ (fun _ => 1/2) (fun _ => 0)
        (genInitState ⟨.d123, 1, 0, 0, 42, 1⟩ 0) 1
      = genDriftRun ⟨.d123, 1, 0, 0, 42, 1⟩ (fun _ => 1/2) (fun _ => 0)
        (genInitState ⟨.d123, 1, 0, 0, 42, 1⟩ 0) 1 :=
  ⟨⟨rfl, rfl⟩,
    c5_uf0_pure_drift ⟨.d123, 1, 0, 0, 42, 1⟩ (fun _ => 1/2) (fun _ => 0) rfl rfl
      (fun _ => by norm_num) 1 (genInitState ⟨.d123, 1, 0, 0, 42, 1⟩ 0)⟩

/-- C5 (counterexample): the claim's "never shifts the regime bias" is
false — with `uf = 0` and a tick at wall-clock time `31 ≥ t0 + 30`, the
generator performs a regime switch (`c_switch = 1`) and the bias becomes
`uniform(−1,1)·(0.5 + 0) = 0.25 ≠ 0` (draw `u = 3/4`): the switch schedule
does not depend on `uf`, only the shift magnitude does. -/
theorem c5_regime_switch_counterexample :
    (genStreamRun ⟨.d123, 1, 0, 0, 42, 1⟩ (fun _ => 3/4) (fun _ => 31)
        (genInitState ⟨.d123, 1, 0, 0, 42, 1⟩ 0) 1).1.cSwitch = 1 ∧
    (genStreamRun ⟨.d123, 1, 0, 0, 42, 1⟩ (fun _ => 3/4) (fun _ => 31)
        (genInitState ⟨.d123, 1, 0, 0, 42, 1⟩ 0) 1).1.regimeBias ≠ 0 := by
  constructor <;>
  · simp only [genStreamRun, genInitState, maybeRegimeSwitch, regimeInterval,
      genValue, genNoise, genSpike, genDropout, genDuplicate, genSleep]
    norm_num

end EE
